import Mathlib

set_option autoImplicit false
set_option maxHeartbeats 1000000

/-!
Verification development for the AI Hunger Games round engine
(`ai_hunger_games`: `agent.py`, `voting.py`, `evolution.py`, `simulation.py`).

The Python code is shallowly embedded: mutating methods become state-passing
functions that return the updated object together with their result; the
text-generation backend (`llm_interface.generate`) is an oracle function
`String → String` from prompt to response; each call to the `random` module is
modelled by an oracle natural number threaded to the call site (`random.choice`
picks index `r % length`, `random.shuffle` applies the rotation by
`r % length`, `random.random() < rate` becomes `r % 100 < rate` with the rate
scaled to a percentage, `random.choices(..., weights)` walks cumulative weights
at position `r % total`); `datetime.now()` is an oracle string.  Python dicts
are association lists in insertion order with dict update semantics.
-/

namespace AiHungerGames

/-- One entry of `Agent.memory` as built by `Agent.add_memory` in `agent.py`:
a dict with keys `type`, `content`, `round`, `timestamp`. -/
structure MemoryEntry where
  mtype : String
  content : String
  round : Nat
  timestamp : String
  deriving Repr, DecidableEq

/-- The `Agent` object of `agent.py` (all fields set in `Agent.__init__`). -/
structure Agent where
  name : String
  personality_prompt : String
  memory : List MemoryEntry
  model : String
  generation : Nat
  parent_name : Option String
  birth_round : Nat
  votes_received : Nat
  votes_cast : Nat
  rounds_survived : Nat
  answers_given : Nat
  deriving Repr, DecidableEq

/-- `config.MAX_MEMORY_SIZE` from `config.py`. -/
def MAX_MEMORY_SIZE : Nat := 10

/-- `Agent.add_memory` from `agent.py`: append the new entry, then truncate to
the most recent `MAX_MEMORY_SIZE` entries (`self.memory[-MAX_MEMORY_SIZE:]`,
a positive cap, i.e. drop all but the last `MAX_MEMORY_SIZE`). -/
def add_memory (ag : Agent) (memory_type content : String) (round_num : Nat)
    (now : String) : Agent :=
  let entry : MemoryEntry :=
    { mtype := memory_type, content := content, round := round_num, timestamp := now }
  let mem := ag.memory ++ [entry]
  let mem := if MAX_MEMORY_SIZE < mem.length then mem.drop (mem.length - MAX_MEMORY_SIZE) else mem
  { ag with memory := mem }

/-- Python `s.strip()`: drop leading and trailing whitespace (structurally,
over the character list, so that concrete runs reduce). -/
def pyStrip (s : String) : String :=
  String.mk (((s.toList.dropWhile Char.isWhitespace).reverse.dropWhile
    Char.isWhitespace).reverse)

/-- Python `s.startswith(pre)`. -/
def pyStartsWith (s pre : String) : Bool :=
  pre.toList.isPrefixOf s.toList

/-- Python `s.lower()` (ASCII, which is all the source compares). -/
def pyToLower (s : String) : String :=
  String.mk (s.toList.map Char.toLower)

/-- Python `c in s` for a single character. -/
def pyContainsChar (s : String) (c : Char) : Bool :=
  s.toList.contains c

/-- Python `s[:n]`. -/
def pyTake (s : String) (n : Nat) : String :=
  String.mk (s.toList.take n)

/-- Accumulating walk for Python `s.split(c, 1)`. -/
def pySplitOnceCharAux (c : Char) : List Char → List Char → String × Option String
  | [], acc => (String.mk acc.reverse, none)
  | ch :: rest, acc =>
    if ch == c then (String.mk acc.reverse, some (String.mk rest))
    else pySplitOnceCharAux c rest (ch :: acc)

/-- Python `s.split(c, 1)` for a single-character separator (the only kind
the source uses): the part before the first occurrence, and the rest. -/
def splitOnce (s : String) (c : Char) : String × Option String :=
  pySplitOnceCharAux c s.toList []

/-- Accumulating walk for Python `s.split(c)`. -/
def pySplitCharAux (c : Char) : List Char → List Char → List String
  | [], acc => [String.mk acc.reverse]
  | ch :: rest, acc =>
    if ch == c then String.mk acc.reverse :: pySplitCharAux c rest []
    else pySplitCharAux c rest (ch :: acc)

/-- Python `s.split(c)` for a single-character separator. -/
def pySplitChar (s : String) (c : Char) : List String :=
  pySplitCharAux c s.toList []

/-- `Agent.get_memory_context` from `agent.py`: render the most recent
`max_memories` entries (default 5), each content truncated to 100 characters. -/
def get_memory_context (ag : Agent) (max_memories : Nat := 5) : String :=
  if ag.memory.isEmpty then "No previous memories."
  else
    let recent := ag.memory.drop (ag.memory.length - max_memories)
    "Recent memories:\n" ++ String.join (recent.map (fun mem =>
      "- Round " ++ toString mem.round ++ " (" ++ mem.mtype ++ "): "
        ++ (pyTake mem.content 100) ++ "...\n"))

/-- `Agent.generate_answer` from `agent.py`, state-passing: returns the answer
together with the updated agent (memory appended, `answers_given` bumped). -/
def generate_answer (ag : Agent) (question : String) (round_num : Nat)
    (llm : String → String) (now : String) : String × Agent :=
  let memory_context := get_memory_context ag
  let full_prompt :=
    "You are " ++ ag.name ++ ", an AI agent with the following personality:\n"
      ++ ag.personality_prompt ++ "\n\n" ++ memory_context
      ++ "\n\nQuestion: " ++ question
      ++ "\n\nProvide a thoughtful answer that reflects your unique personality and perspective. Be concise but insightful (2-4 sentences)."
  let answer := llm full_prompt
  let ag := add_memory ag "answer" ("Q: " ++ question ++ " | A: " ++ answer) round_num now
  let ag := { ag with answers_given := ag.answers_given + 1 }
  (answer, ag)

/-- Result of `Agent.vote_on_answers`, state-passing: the returned pair, the
updated agent, and how many generator calls were made on the taken path. -/
structure VoteOutcome where
  voted_for : String
  justification : String
  agent : Agent
  llm_calls : Nat
  deriving Repr

/-- The candidate set built by `Agent.vote_on_answers` and by
`VotingSystem._get_agent_rankings`: all answers, excluding the entry of the
voter itself unless self-voting is allowed. -/
def availableOf (allow_self_voting : Bool) (name : String)
    (answers : List (String × String)) : List (String × String) :=
  answers.filter (fun kv => allow_self_voting || kv.1 != name)

/-- The voting prompt composed by `Agent.vote_on_answers`. -/
def votingPrompt (ag : Agent) (question : String)
    (available_answers : List (String × String)) : String :=
  let answers_text := String.intercalate "\n\n"
    (available_answers.map (fun kv => "Agent " ++ kv.1 ++ ":\n" ++ kv.2))
  "You are " ++ ag.name ++ ", an AI agent with this personality:\n"
    ++ ag.personality_prompt
    ++ "\n\nQuestion that was asked: " ++ question
    ++ "\n\nHere are the answers from different agents:\n\n" ++ answers_text
    ++ "\n\nBased on your personality and values, which agent gave the BEST answer? \nRespond with ONLY the agent\x27s name on the first line, followed by a 1-2 sentence justification on the next line.\n\nFormat:\nAgent Name\nJustification here."

/-- `Agent.vote_on_answers` from `agent.py`.  `rand` is the oracle for
`random.choice` on the parse-failure fallback (index `rand % length` into
`list(available_answers.keys())`). -/
def vote_on_answers (ag : Agent) (question : String)
    (answers : List (String × String)) (round_num : Nat)
    (llm : String → String) (rand : Nat) (now : String)
    (allow_self_voting : Bool) : VoteOutcome :=
  let available_answers := availableOf allow_self_voting ag.name answers
  if available_answers.isEmpty then
    { voted_for := ag.name, justification := "No other options available.",
      agent := ag, llm_calls := 0 }
  else
    let vote_response := llm (votingPrompt ag question available_answers)
    let parsed := splitOnce (pyStrip vote_response) '\n'
    let voted_for := pyStrip parsed.1
    let justification :=
      match parsed.2 with
      | some j => pyStrip j
      | none => "No justification provided."
    let pair :=
      if available_answers.any (fun kv => kv.1 == voted_for) then
        (voted_for, justification)
      else
        let ks := available_answers.map Prod.fst
        (ks.getD (rand % ks.length) ag.name, "Vote parsing failed, random selection made.")
    let ag := add_memory ag "vote" ("Voted for " ++ pair.1 ++ ": " ++ pair.2) round_num now
    let ag := { ag with votes_cast := ag.votes_cast + 1 }
    { voted_for := pair.1, justification := pair.2, agent := ag, llm_calls := 1 }

/-- Python dict update `d[k] = v` on an insertion-ordered association list
(keys are unique, so updating the first match is dict semantics): replace in
place if the key exists, otherwise append at the end. -/
def dictInsert {α : Type} : List (String × α) → String → α → List (String × α)
  | [], k, v => [(k, v)]
  | kv :: rest, k, v =>
    if kv.1 == k then (kv.1, v) :: rest else kv :: dictInsert rest k v

/-- `votes[voted_for] += 1` on a `defaultdict(int)`: a missing key enters the
tally (at the end, in first-vote order) with count 1. -/
def tallyIncr : List (String × Nat) → String → List (String × Nat)
  | [], k => [(k, 1)]
  | kv :: rest, k =>
    if kv.1 == k then (kv.1, kv.2 + 1) :: rest else kv :: tallyIncr rest k

/-- `points[name] += v` on a `defaultdict(float)`; the values added by the
ranked tally are the integers `num_candidates - idx` (negative in Python once
`idx` exceeds `num_candidates`), so the points live in `Int`. -/
def tallyAddInt : List (String × Int) → String → Int → List (String × Int)
  | [], k, v => [(k, v)]
  | kv :: rest, k, v =>
    if kv.1 == k then (kv.1, kv.2 + v) :: rest else kv :: tallyAddInt rest k v

/-- `justifications[voted_for].append(s)` on a `defaultdict(list)`. -/
def multiMapAdd : List (String × List String) → String → String →
    List (String × List String)
  | [], k, v => [(k, [v])]
  | kv :: rest, k, v =>
    if kv.1 == k then (kv.1, kv.2 ++ [v]) :: rest else kv :: multiMapAdd rest k v

/-- One entry of `vote_details` in `VotingSystem._single_choice_vote`. -/
structure VoteDetail where
  voter : String
  voted_for : String
  justification : String
  deriving Repr, DecidableEq

/-- One entry of `vote_details` in `VotingSystem._ranked_choice_vote`. -/
structure RankedDetail where
  voter : String
  rankings : List String
  justification : String
  deriving Repr, DecidableEq

/-- The result dict built by `VotingSystem.conduct_vote`; `votes` is populated
by the single-choice method, `points` and `ranked_details` by ranked-choice. -/
structure VoteResult where
  method : String
  round : Nat
  question : String
  votes : List (String × Nat)
  justifications : List (String × List String)
  vote_details : List VoteDetail
  points : List (String × Int)
  ranked_details : List RankedDetail
  total_votes : Nat
  deriving Repr

/-- Accumulator state of the voter loop in
`VotingSystem._single_choice_vote`: updated agents so far, the tally, the
detail and justification records, and the position (used to index the
`random.choice` oracle). -/
structure SingleVoteState where
  agents : List Agent
  votes : List (String × Nat)
  vote_details : List VoteDetail
  justifications : List (String × List String)
  idx : Nat

/-- The `for agent in agents` voting loop of
`VotingSystem._single_choice_vote`, as a left fold written recursively. -/
def singleVoteLoop (question : String) (answers : List (String × String))
    (round_num : Nat) (llm : String → String) (rand : Nat → Nat) (now : String)
    (allow_self_voting : Bool) : List Agent → SingleVoteState → SingleVoteState
  | [], st => st
  | agent :: rest, st =>
    let o := vote_on_answers agent question answers round_num llm (rand st.idx) now
      allow_self_voting
    singleVoteLoop question answers round_num llm rand now allow_self_voting rest
      { agents := st.agents ++ [o.agent],
        votes := tallyIncr st.votes o.voted_for,
        vote_details := st.vote_details ++
          [{ voter := agent.name, voted_for := o.voted_for, justification := o.justification }],
        justifications := multiMapAdd st.justifications o.voted_for
          (agent.name ++ ": " ++ o.justification),
        idx := st.idx + 1 }

/-- Python `d[k]` lookup on an association list (the call sites guard with
`k in d`, so the default is never observed). -/
def dictGetNat (d : List (String × Nat)) (k : String) : Nat :=
  ((d.find? (fun kv => kv.1 == k)).map Prod.snd).getD 0

/-- `VotingSystem._single_choice_vote` from `voting.py`, state-passing: every
agent casts one vote via `vote_on_answers`, the tally counts them, and each
agent whose name is a tally key gets its count added to `votes_received`. -/
def single_choice_vote (agents : List Agent) (question : String)
    (answers : List (String × String)) (round_num : Nat)
    (llm : String → String) (rand : Nat → Nat) (now : String)
    (allow_self_voting : Bool) : List Agent × VoteResult :=
  let st := singleVoteLoop question answers round_num llm rand now allow_self_voting
    agents { agents := [], votes := [], vote_details := [], justifications := [], idx := 0 }
  let agents2 := st.agents.map (fun a =>
    if st.votes.any (fun kv => kv.1 == a.name) then
      { a with votes_received := a.votes_received + dictGetNat st.votes a.name }
    else a)
  (agents2,
    { method := "single-choice", round := round_num, question := question,
      votes := st.votes, justifications := st.justifications,
      vote_details := st.vote_details, points := [], ranked_details := [],
      total_votes := agents.length })

/-- `random.shuffle` modelled by an oracle-chosen rotation: the result is a
permutation of the input selected by the oracle `r`. -/
def rotate {α : Type} (l : List α) (r : Nat) : List α :=
  l.drop (r % l.length) ++ l.take (r % l.length)

/-- State of the line-parsing loop in `VotingSystem._get_agent_rankings`. -/
structure ParsedRanking where
  ranked_list : List String
  justification : String
  deriving Repr

/-- One iteration of the parsing loop in `VotingSystem._get_agent_rankings`:
a `Justification:` line overwrites the justification; a line that starts with
a digit or a dash contributes the name after the first `.` or `-` when that
name is an available candidate; other lines are skipped. -/
def parseRankedLine (available : List (String × String)) (st : ParsedRanking)
    (line0 : String) : ParsedRanking :=
  let line := pyStrip line0
  if pyStartsWith (pyToLower line) "justification" then
    if pyContainsChar line ':' then
      { st with justification := pyStrip ((splitOnce line ':').2.getD "") }
    else { st with justification := "" }
  else if line != "" && ((line.toList.headD ' ').isDigit || pyStartsWith line "-") then
    let parts := if pyContainsChar line '.' then splitOnce line '.' else splitOnce line '-'
    match parts.2 with
    | some rest =>
      let name := pyStrip rest
      if available.any (fun kv => kv.1 == name) then
        { st with ranked_list := st.ranked_list ++ [name] }
      else st
    | none => st
  else st

/-- `VotingSystem._get_agent_rankings` from `voting.py`: build the candidate
set (excluding self unless allowed), ask the generator for a numbered list,
parse it, and on an empty parse fall back to a random order (`random.shuffle`
modelled by `rotate` with oracle `rand`). -/
def get_agent_rankings (allow_self_voting : Bool) (agent : Agent)
    (question : String) (answers : List (String × String)) (round_num : Nat)
    (llm : String → String) (rand : Nat) : List String × String :=
  let available_answers := availableOf allow_self_voting agent.name answers
  if available_answers.isEmpty then ([agent.name], "No other options available.")
  else
    let answers_text := String.intercalate "\n\n"
      (available_answers.map (fun kv => "Agent " ++ kv.1 ++ ":\n" ++ kv.2))
    let ranking_prompt :=
      "You are " ++ agent.name ++ ". Rank ALL of the following answers from BEST to WORST.\n\nQuestion: "
        ++ question ++ "\n\nAnswers:\n" ++ answers_text
        ++ "\n\nProvide your ranking as a numbered list with the agent names, followed by a brief justification.\n\nFormat:\n1. [Agent Name]\n2. [Agent Name]\n3. [Agent Name]\n...\n\nJustification: [Your reasoning]"
    let response := llm ranking_prompt
    let lines := pySplitChar (pyStrip response) '\n'
    let st := lines.foldl (parseRankedLine available_answers)
      { ranked_list := [], justification := "" }
    if st.ranked_list.isEmpty then
      (rotate (available_answers.map Prod.fst) rand,
        "Ranking parsing failed, random order used.")
    else (st.ranked_list, st.justification)

/-- The inner loop `for idx, agent_name in enumerate(ranking)` of
`VotingSystem._ranked_choice_vote`, with the running enumeration index:
position `idx` (0-based) awards `num_candidates - idx` points to the name at
that position. -/
def awardRankingAux (num_candidates : Nat) :
    List (String × Int) → Nat → List String → List (String × Int)
  | t, _, [] => t
  | t, idx, name :: rest =>
    awardRankingAux num_candidates
      (tallyAddInt t name ((num_candidates : Int) - (idx : Int))) (idx + 1) rest

/-- The point award for one ranking in `VotingSystem._ranked_choice_vote`
(enumeration starts at 0). -/
def awardRanking (t : List (String × Int)) (num_candidates : Nat)
    (ranking : List String) : List (String × Int) :=
  awardRankingAux num_candidates t 0 ranking

/-- The full point-award loop of `VotingSystem._ranked_choice_vote` over all
voters, starting from the empty `defaultdict(float)`. -/
def awardPoints (rankings : List (List String)) (num_candidates : Nat) :
    List (String × Int) :=
  rankings.foldl (fun t r => awardRanking t num_candidates r) []

/-- Accumulator of the voter loop in `VotingSystem._ranked_choice_vote`. -/
structure RankedVoteState where
  rankings : List (List String)
  ranked_details : List RankedDetail
  idx : Nat

/-- The `for agent in agents` loop of `VotingSystem._ranked_choice_vote`. -/
def rankedVoteLoop (allow_self_voting : Bool) (question : String)
    (answers : List (String × String)) (round_num : Nat)
    (llm : String → String) (rand : Nat → Nat) :
    List Agent → RankedVoteState → RankedVoteState
  | [], st => st
  | agent :: rest, st =>
    let r := get_agent_rankings allow_self_voting agent question answers round_num llm
      (rand st.idx)
    rankedVoteLoop allow_self_voting question answers round_num llm rand rest
      { rankings := st.rankings ++ [r.1],
        ranked_details := st.ranked_details ++
          [{ voter := agent.name, rankings := r.1, justification := r.2 }],
        idx := st.idx + 1 }

/-- `VotingSystem._ranked_choice_vote` from `voting.py`: collect one ranking
per agent, then award `len(answers) - idx` points per position. The agents
themselves are not modified on this path (`_get_agent_rankings` does not touch
the agent). -/
def ranked_choice_vote (agents : List Agent) (question : String)
    (answers : List (String × String)) (round_num : Nat)
    (llm : String → String) (rand : Nat → Nat)
    (allow_self_voting : Bool) : List Agent × VoteResult :=
  let st := rankedVoteLoop allow_self_voting question answers round_num llm rand
    agents { rankings := [], ranked_details := [], idx := 0 }
  let points := awardPoints st.rankings answers.length
  (agents,
    { method := "ranked-choice", round := round_num, question := question,
      votes := [], justifications := [], vote_details := [],
      points := points, ranked_details := st.ranked_details,
      total_votes := agents.length })

/-- `VotingSystem.conduct_vote` from `voting.py`: dispatch on the configured
method; an unknown method raises `ValueError`, modelled as `none`. -/
def conduct_vote (method : String) (allow_self_voting : Bool)
    (agents : List Agent) (question : String)
    (answers : List (String × String)) (round_num : Nat)
    (llm : String → String) (rand : Nat → Nat) (now : String) :
    Option (List Agent × VoteResult) :=
  if method == "single-choice" then
    some (single_choice_vote agents question answers round_num llm rand now
      allow_self_voting)
  else if method == "ranked-choice" then
    some (ranked_choice_vote agents question answers round_num llm rand
      allow_self_voting)
  else none

/-- Python `min(items, key=lambda x: x[1])` over an association list: first
entry with the minimal value (strict comparison keeps the earlier entry on
ties), `none` on the empty list. -/
def minByValue {β : Type} [LT β] [DecidableRel (α := β) (· < ·)] :
    List (String × β) → Option (String × β)
  | [] => none
  | kv :: rest => some (rest.foldl (fun best x => if x.2 < best.2 then x else best) kv)

/-- Python `max(items, key=lambda x: x[1])`: first entry with the maximal
value, `none` on the empty list. -/
def maxByValue {β : Type} [LT β] [DecidableRel (α := β) (· < ·)] :
    List (String × β) → Option (String × β)
  | [] => none
  | kv :: rest => some (rest.foldl (fun best x => if best.2 < x.2 then x else best) kv)

/-- `VotingSystem.get_loser` from `voting.py`: the tally key with the fewest
votes (single-choice) or points (ranked-choice); `""` on an empty tally or an
unknown method. -/
def get_loser (vr : VoteResult) : String :=
  if vr.method == "single-choice" then
    match minByValue vr.votes with
    | none => ""
    | some kv => kv.1
  else if vr.method == "ranked-choice" then
    match minByValue vr.points with
    | none => ""
    | some kv => kv.1
  else ""

/-- `VotingSystem.get_winner` from `voting.py`. -/
def get_winner (vr : VoteResult) : String :=
  if vr.method == "single-choice" then
    match maxByValue vr.votes with
    | none => ""
    | some kv => kv.1
  else if vr.method == "ranked-choice" then
    match maxByValue vr.points with
    | none => ""
    | some kv => kv.1
  else ""

/-- `EvolutionManager.eliminate_agent` from `evolution.py`: pop the first
population entry whose name matches `loser_name` and return it; `none` and an
unchanged population when no entry matches.  (The elimination-history record
built from the popped agent does not affect the population and is omitted.) -/
def eliminate_agent : List Agent → String → Option Agent × List Agent
  | [], _ => (none, [])
  | a :: rest, loser_name =>
    if a.name == loser_name then (some a, rest)
    else
      let r := eliminate_agent rest loser_name
      (r.1, a :: r.2)

/-- `random.choices(population, weights=weights, k=1)[0]` for positive integer
weights, modelled by walking cumulative weights at position `r % total`. -/
def weightedChoiceAux : List (Agent × Nat) → Nat → Option Agent
  | [], _ => none
  | (a, w) :: rest, t => if t < w then some a else weightedChoiceAux rest (t - w)

/-- Weighted random draw used by `_select_parent`; `none` models the
`IndexError` `random.choices` raises on an empty population. -/
def weightedChoice (agents : List Agent) (weights : List Nat) (r : Nat) :
    Option Agent :=
  let total := weights.foldl (· + ·) 0
  if total == 0 then none
  else weightedChoiceAux (agents.zip weights) (r % total)

/-- `EvolutionManager._select_parent` from `evolution.py`: weight each agent by
`votes_received + 1`; when all weights coincide, re-weight by
`rounds_survived + 1`; then draw (`random.choices` oracle `r`). -/
def select_parent (agents : List Agent) (r : Nat) : Option Agent :=
  let weights := agents.map (fun a => a.votes_received + 1)
  let weights :=
    if weights.dedup.length == 1 then agents.map (fun a => a.rounds_survived + 1)
    else weights
  weightedChoice agents weights r

/-- `config.MUTATION_RATE` (0.3) scaled to a percentage, so that
`random.random() < rate` becomes `r % 100 < rate_pct` on the oracle `r`. -/
def MUTATION_RATE_PCT : Nat := 30

/-- `config.MUTATION_TRAITS` from `config.py`. -/
def MUTATION_TRAITS : List String :=
  ["more analytical", "more creative", "more skeptical", "more optimistic",
   "more concise", "more detailed", "more humorous", "more serious",
   "more technical", "more philosophical", "more practical", "more abstract",
   "more empathetic", "more logical", "more intuitive"]

/-- `EvolutionManager._evolve_personality` from `evolution.py`: with the
configured mutation probability append 1-3 sampled traits
(`random.sample` modelled by a rotation plus `take`), otherwise append the
fixed refinement annotation.  Oracles: `rMut` for `random.random`, `rCount`
for `random.randint(1, 3)`, `rSample` for the sample. -/
def evolve_personality (mutation_rate_pct : Nat) (mutation_traits : List String)
    (parent : Agent) (rMut rCount rSample : Nat) : String :=
  if rMut % 100 < mutation_rate_pct then
    let num_mutations := 1 + rCount % 3
    let selected_traits := (rotate mutation_traits rSample).take
      (min num_mutations mutation_traits.length)
    parent.personality_prompt
      ++ "\n\nEvolved traits: You have evolved to be "
      ++ String.intercalate ", " selected_traits
      ++ ". You inherit your parent\x27s core values but express them through these new traits."
  else
    parent.personality_prompt
      ++ "\n\nYou are a refined version of your predecessor, maintaining their core philosophy."

/-- The fixed suffix vocabulary of `_generate_evolved_name`. -/
def evolution_suffixes : List String :=
  ["Evolved", "2.0", "Redux", "Reborn", "Neo", "Next", "Prime", "Enhanced",
   "Advanced", "Plus"]

/-- The adjective vocabulary of `_generate_evolved_name`. -/
def name_adjectives : List String :=
  ["Adaptive", "Strategic", "Resilient", "Dynamic", "Innovative", "Insightful",
   "Cunning", "Wise", "Bold", "Swift"]

/-- The noun vocabulary of `_generate_evolved_name`. -/
def name_nouns : List String :=
  ["Thinker", "Scholar", "Mind", "Sage", "Oracle", "Strategist", "Visionary",
   "Pioneer", "Master", "Expert"]

/-- `EvolutionManager._generate_evolved_name` from `evolution.py`: with
probability 0.6 suffix the parent name, otherwise synthesize a fresh
`The {adjective} {noun}` name.  Oracles: `rSuffix`, `rBranch`, `rAdj`, `rNoun`
for the four `random` calls. -/
def generate_evolved_name (parent : Agent) (base_name : Option String)
    (rSuffix rBranch rAdj rNoun : Nat) : String :=
  match base_name with
  | some b => b ++ " II"
  | none =>
    let suffix := evolution_suffixes.getD (rSuffix % evolution_suffixes.length) ""
    if rBranch % 100 < 60 then parent.name ++ " " ++ suffix
    else
      "The " ++ name_adjectives.getD (rAdj % name_adjectives.length) ""
        ++ " " ++ name_nouns.getD (rNoun % name_nouns.length) ""

/-- The oracle bundle for one `create_evolved_agent` call (one natural per
`random` call in the source). -/
structure EvoOracle where
  rParent : Nat
  rMut : Nat
  rCount : Nat
  rSample : Nat
  rSuffix : Nat
  rBranch : Nat
  rAdj : Nat
  rNoun : Nat

/-- `EvolutionManager.create_evolved_agent` from `evolution.py`: raises
(`none`) on an empty population, otherwise selects a parent, evolves the
personality, synthesizes a name, and constructs the child with
`generation = parent.generation + 1`, `parent_name = parent.name`,
`birth_round = round_num`.  (The creation-history record does not affect the
population and is omitted.) -/
def create_evolved_agent (mutation_rate_pct : Nat) (mutation_traits : List String)
    (existing_agents : List Agent) (round_num : Nat) (model : String)
    (o : EvoOracle) : Option Agent :=
  if existing_agents.isEmpty then none
  else
    (select_parent existing_agents o.rParent).map (fun parent =>
      { name := generate_evolved_name parent none o.rSuffix o.rBranch o.rAdj o.rNoun,
        personality_prompt :=
          evolve_personality mutation_rate_pct mutation_traits parent o.rMut o.rCount o.rSample,
        memory := [], model := model,
        generation := parent.generation + 1,
        parent_name := some parent.name,
        birth_round := round_num,
        votes_received := 0, votes_cast := 0, rounds_survived := 0,
        answers_given := 0 })

/-- The answer-collection loop of `HungerGamesSimulation.run_round` (phase 1):
each agent answers in population order and the answers dict maps the agent
name to its answer. -/
def collectAnswers (question : String) (round_num : Nat) (llm : String → String)
    (now : String) :
    List Agent → List Agent × List (String × String) →
      List Agent × List (String × String)
  | [], acc => acc
  | agent :: rest, acc =>
    let r := generate_answer agent question round_num llm now
    collectAnswers question round_num llm now rest
      (acc.1 ++ [r.2], dictInsert acc.2 r.2.name r.1)

/-- The oracle bundle consumed by one `run_round` call. -/
structure RoundOracle where
  llm : String → String
  voteRand : Nat → Nat
  now : String
  evo : EvoOracle

/-- The round record returned by `run_round` (the fields the claims need:
the updated population plus the summary entries of the returned dict). -/
structure RoundResult where
  agents : List Agent
  answers : List (String × String)
  vote : VoteResult
  eliminated : String
  evolved : String

/-- `HungerGamesSimulation.run_round` from `simulation.py`, state-passing over
the population: bump `rounds_survived`, collect answers, conduct the vote,
eliminate the loser named by `get_loser`, spawn a replacement via
`create_evolved_agent` and append it.  `none` models the exceptions the Python
code does not catch (unknown voting method in `conduct_vote`, empty population
in `create_evolved_agent`). -/
def run_round (voting_method : String) (allow_self_voting : Bool)
    (mutation_rate_pct : Nat) (mutation_traits : List String) (model : String)
    (agents : List Agent) (round_num : Nat) (question : String)
    (o : RoundOracle) : Option RoundResult :=
  let agents := agents.map (fun a => { a with rounds_survived := a.rounds_survived + 1 })
  let phase1 := collectAnswers question round_num o.llm o.now agents ([], [])
  match conduct_vote voting_method allow_self_voting phase1.1 question phase1.2
      round_num o.llm o.voteRand o.now with
  | none => none
  | some (agents2, vote_results) =>
    let loser_name := get_loser vote_results
    let elim := eliminate_agent agents2 loser_name
    match create_evolved_agent mutation_rate_pct mutation_traits elim.2 round_num
        model o.evo with
    | none => none
    | some new_agent =>
      some { agents := elim.2 ++ [new_agent], answers := phase1.2,
             vote := vote_results, eliminated := loser_name,
             evolved := new_agent.name }

/-- One personality seed (`{"name": ..., "personality": ...}`). -/
structure Personality where
  name : String
  personality : String
  deriving Repr, DecidableEq

/-- The body of the padding loop of `HungerGamesSimulation.initialize_agents`,
running a fixed number of iterations (each iteration grows the list by one
entry, so the `while len(personalities) < num_agents` loop runs exactly
`num_agents - len` times): append `personalities[len(personalities) %
len(personalities)]`.  `none` models the `ZeroDivisionError` on an empty seed
list. -/
def padPersonalitiesGo : List Personality → Nat → Option (List Personality)
  | ps, 0 => some ps
  | ps, k + 1 =>
    if h0 : ps.length = 0 then none
    else
      padPersonalitiesGo
        (ps ++ [ps.get ⟨ps.length % ps.length, Nat.mod_lt _ (Nat.pos_of_ne_zero h0)⟩]) k

/-- The padding step of `HungerGamesSimulation.initialize_agents`. -/
def padPersonalities (num_agents : Nat) (ps : List Personality) :
    Option (List Personality) :=
  padPersonalitiesGo ps (num_agents - ps.length)

/-- `HungerGamesSimulation.initialize_agents` from `simulation.py`: pad the
seed list up to `num_agents`, then create one generation-0 founder per index
`i < num_agents` from `personalities[i]`. -/
def initialize_agents (num_agents : Nat) (model : String)
    (personalities : List Personality) : Option (List Agent) :=
  (padPersonalities num_agents personalities).map (fun ps =>
    (List.range num_agents).map (fun i =>
      let p := ps.getD i { name := "", personality := "" }
      { name := p.name, personality_prompt := p.personality, memory := [],
        model := model, generation := 0, parent_name := none, birth_round := 0,
        votes_received := 0, votes_cast := 0, rounds_survived := 0,
        answers_given := 0 }))

/-- The `find parent in history` scan of `EvolutionManager.get_lineage`:
resolve a name to the first entry of the historical roster bearing it. -/
def find_agent (roster : List Agent) (name : String) : Option Agent :=
  roster.find? (fun a => a.name == name)

/-- The `while current.parent_name` loop of `EvolutionManager.get_lineage`,
with explicit fuel: append the parent name, resolve it in the roster
(continue) or stop at the first unresolved ancestor; the flag records whether
the loop exited on its own (`true`) rather than by exhausting the fuel. -/
def lineageLoop (roster : List Agent) : Nat → Agent → List String → List String × Bool
  | 0, _, acc => (acc, false)
  | fuel + 1, current, acc =>
    match current.parent_name with
    | none => (acc, true)
    | some p =>
      match find_agent roster p with
      | some parent => lineageLoop roster fuel parent (acc ++ [p])
      | none => (acc ++ [p], true)

/-- `EvolutionManager.get_lineage` from `evolution.py`: walk `parent_name`
back through the roster starting from `[agent.name]`, then reverse
(oldest ancestor first, the queried agent last). -/
def get_lineage (roster : List Agent) (agent : Agent) (fuel : Nat) :
    List String × Bool :=
  let r := lineageLoop roster fuel agent [agent.name]
  (r.1.reverse, r.2)

/-- A sequence of `add_memory` insertions, oldest first. -/
def addMemories (ag : Agent) (es : List MemoryEntry) : Agent :=
  es.foldl (fun a e => add_memory a e.mtype e.content e.round e.timestamp) ag

/-- A founder agent as constructed by `initialize_agents` (generation 0, no
parent, fresh counters). -/
def mkFounder (name personality_prompt : String) : Agent :=
  { name := name, personality_prompt := personality_prompt, memory := [],
    model := "llama2", generation := 0, parent_name := none, birth_round := 0,
    votes_received := 0, votes_cast := 0, rounds_survived := 0,
    answers_given := 0 }

/-! ### Memory-buffer lemmas -/

theorem rtake_append_rtake {α : Type} (k : Nat) (l es : List α) :
    (l.rtake k ++ es).rtake k = (l ++ es).rtake k := by
  rw [List.rtake_eq_reverse_take_reverse (l.rtake k ++ es),
    List.rtake_eq_reverse_take_reverse (l ++ es), List.reverse_append,
    List.reverse_append, List.rtake_eq_reverse_take_reverse l,
    List.reverse_reverse, List.take_append_eq_append_take,
    List.take_append_eq_append_take, List.take_take,
    Nat.min_eq_left (Nat.sub_le _ _)]

theorem rtake_of_length_le {α : Type} {l : List α} {k : Nat}
    (h : l.length ≤ k) : l.rtake k = l := by
  simp [List.rtake, Nat.sub_eq_zero_of_le h]

theorem length_rtake {α : Type} (l : List α) (k : Nat) :
    (l.rtake k).length = min k l.length := by
  simp [List.rtake]; omega

theorem add_memory_memory (ag : Agent) (t c : String) (r : Nat) (n : String) :
    (add_memory ag t c r n).memory
      = (ag.memory ++ [(⟨t, c, r, n⟩ : MemoryEntry)]).rtake MAX_MEMORY_SIZE := by
  simp only [add_memory, List.rtake, List.length_append, List.length_cons,
    List.length_nil]
  split
  · rfl
  · next h =>
    have h2 : ag.memory.length + (0 + 1) - MAX_MEMORY_SIZE = 0 := by omega
    simp only [h2, List.drop_zero]

theorem addMemories_memory : ∀ (es : List MemoryEntry) (ag : Agent),
    ag.memory.length ≤ MAX_MEMORY_SIZE →
    (addMemories ag es).memory = (ag.memory ++ es).rtake MAX_MEMORY_SIZE
  | [], ag, h => by
    simp [addMemories, rtake_of_length_le h]
  | e :: es, ag, h => by
    have step : (add_memory ag e.mtype e.content e.round e.timestamp).memory
        = (ag.memory ++ [e]).rtake MAX_MEMORY_SIZE :=
      add_memory_memory ag e.mtype e.content e.round e.timestamp
    have hlen : (add_memory ag e.mtype e.content e.round e.timestamp).memory.length
        ≤ MAX_MEMORY_SIZE := by
      rw [step, length_rtake]; omega
    have ih := addMemories_memory es (add_memory ag e.mtype e.content e.round e.timestamp) hlen
    have unfoldStep : addMemories ag (e :: es)
        = addMemories (add_memory ag e.mtype e.content e.round e.timestamp) es := rfl
    rw [unfoldStep, ih, step, rtake_append_rtake]
    simp

/-! ### C8 -/

/-- C8: inserting a sequence of entries into the bounded history buffer of an
agent whose buffer respects the configured cap (`MAX_MEMORY_SIZE = 10`)
retains, once more than the cap has been inserted, exactly the cap-many most
recent entries in their original relative insertion order (FIFO eviction of
the oldest). -/
theorem claim_C8_memory_cap_fifo (ag : Agent) (es : List MemoryEntry)
    (h0 : ag.memory.length ≤ MAX_MEMORY_SIZE)
    (h1 : MAX_MEMORY_SIZE < es.length) :
    (addMemories ag es).memory = es.rtake MAX_MEMORY_SIZE ∧
    (addMemories ag es).memory.length = MAX_MEMORY_SIZE := by
  have h := addMemories_memory es ag h0
  constructor
  · rw [h, List.rtake_eq_reverse_take_reverse, List.reverse_append,
      List.take_append_of_le_length (by simp; omega),
      ← List.rtake_eq_reverse_take_reverse]
  · rw [h, length_rtake]; simp; omega

/-- Concrete inputs for the C8 witness: a fresh agent and fifteen entries. -/
def esC8 : List MemoryEntry :=
  (List.range 15).map (fun i => { mtype := "answer", content := "c", round := i, timestamp := "t" })

/-- Witness for C8 at cap 10 and fifteen insertions. -/
theorem claim_C8_memory_cap_fifo_witness :
    ((mkFounder "A" "p").memory.length ≤ MAX_MEMORY_SIZE ∧
      MAX_MEMORY_SIZE < esC8.length) ∧
    ((addMemories (mkFounder "A" "p") esC8).memory = esC8.rtake MAX_MEMORY_SIZE ∧
      (addMemories (mkFounder "A" "p") esC8).memory.length = MAX_MEMORY_SIZE) :=
  ⟨⟨by decide, by decide⟩,
    claim_C8_memory_cap_fifo (mkFounder "A" "p") esC8 (by decide) (by decide)⟩

/-! ### Vote lemmas -/

theorem availableOf_keys_subset (allow : Bool) (name : String)
    (answers : List (String × String)) :
    ∀ k ∈ (availableOf allow name answers).map Prod.fst, k ∈ answers.map Prod.fst := by
  intro k hk
  simp only [availableOf, List.mem_map] at hk ⊢
  obtain ⟨kv, hkv, rfl⟩ := hk
  exact ⟨kv, List.mem_of_mem_filter hkv, rfl⟩

theorem vote_on_answers_voted_for_mem (ag : Agent) (question : String)
    (answers : List (String × String)) (round_num : Nat) (llm : String → String)
    (rand : Nat) (now : String) (allow : Bool) :
    (vote_on_answers ag question answers round_num llm rand now allow).voted_for
      ∈ ag.name :: answers.map Prod.fst := by
  unfold vote_on_answers
  set av := availableOf allow ag.name answers with hav
  by_cases hE : av.isEmpty
  · simp [hE]
  · simp only [hE, Bool.false_eq_true, if_false]
    have hsub := availableOf_keys_subset allow ag.name answers
    rw [← hav] at hsub
    set voted := pyStrip (splitOnce (pyStrip (llm (votingPrompt ag question av))) '\n').1 with hvoted
    have hne' : av ≠ [] := by
      intro h0
      rw [h0] at hE
      simp at hE
    by_cases hany : av.any (fun kv => kv.1 == voted)
    · simp only [hany, if_true]
      rw [List.any_eq_true] at hany
      obtain ⟨kv, hkv, hbeq⟩ := hany
      have : voted ∈ av.map Prod.fst := by
        rw [← eq_of_beq hbeq]
        exact List.mem_map_of_mem Prod.fst hkv
      exact List.mem_cons_of_mem _ (hsub _ this)
    · simp only [hany, if_false]
      have hlen : 0 < (av.map Prod.fst).length := by
        simp only [List.length_map]
        exact List.length_pos.mpr hne'
      have hidx : rand % (av.map Prod.fst).length < (av.map Prod.fst).length :=
        Nat.mod_lt _ hlen
      have hget : (av.map Prod.fst).getD (rand % (av.map Prod.fst).length) ag.name
          ∈ av.map Prod.fst := by
        rw [List.getD_eq_getElem _ _ hidx]
        exact List.getElem_mem _
      exact List.mem_cons_of_mem _ (hsub _ hget)

/-! ### C5 -/

/-- C5: with a non-empty candidate set, `vote_on_answers` always returns a key
of the candidate set; when the name parsed from the generated response is not
a candidate, the vote is replaced by the random choice among the candidates
(oracle-indexed) and the justification by the fixed parsing-failure marker. -/
theorem claim_C5_vote_in_candidates (ag : Agent) (question : String)
    (answers : List (String × String)) (round_num : Nat) (llm : String → String)
    (rand : Nat) (now : String) (allow : Bool)
    (hne : availableOf allow ag.name answers ≠ []) :
    (vote_on_answers ag question answers round_num llm rand now allow).voted_for
      ∈ (availableOf allow ag.name answers).map Prod.fst ∧
    ((availableOf allow ag.name answers).any (fun kv =>
        kv.1 == pyStrip (splitOnce (pyStrip (llm (votingPrompt ag question
          (availableOf allow ag.name answers)))) '\n').1) = false →
      (vote_on_answers ag question answers round_num llm rand now allow).voted_for
        = ((availableOf allow ag.name answers).map Prod.fst).getD
            (rand % ((availableOf allow ag.name answers).map Prod.fst).length) ag.name ∧
      (vote_on_answers ag question answers round_num llm rand now allow).justification
        = "Vote parsing failed, random selection made.") := by
  have hE : (availableOf allow ag.name answers).isEmpty = false := by
    cases h : availableOf allow ag.name answers with
    | nil => exact absurd h hne
    | cons a l => rfl
  unfold vote_on_answers
  set av := availableOf allow ag.name answers with hav
  simp only [hE, Bool.false_eq_true, if_false]
  set voted := pyStrip (splitOnce (pyStrip (llm (votingPrompt ag question av))) '\n').1 with hvoted
  have hlen : 0 < (av.map Prod.fst).length := by
    simp only [List.length_map]
    exact List.length_pos.mpr hne
  have hget : (av.map Prod.fst).getD (rand % (av.map Prod.fst).length) ag.name
      ∈ av.map Prod.fst := by
    rw [List.getD_eq_getElem _ _ (Nat.mod_lt _ hlen)]
    exact List.getElem_mem _
  by_cases hany : av.any (fun kv => kv.1 == voted)
  · simp only [hany, if_true]
    refine ⟨?_, ?_⟩
    · rw [List.any_eq_true] at hany
      obtain ⟨kv, hkv, hbeq⟩ := hany
      rw [← eq_of_beq hbeq]
      exact List.mem_map_of_mem Prod.fst hkv
    · intro hfalse
      exact absurd hfalse (by simp)
  · rw [Bool.not_eq_true] at hany
    simp only [hany, Bool.false_eq_true, if_false]
    constructor
    · exact hget
    · intro hf
      exact ⟨trivial, trivial⟩

/-- Witness for C5: a two-candidate vote whose generated response parses to a
name outside the candidate set, so the random fallback fires. -/
theorem claim_C5_vote_in_candidates_witness :
    availableOf false "Alice" [("Alice", "a"), ("Bob", "b"), ("Carol", "c")] ≠ [] ∧
    ((vote_on_answers (mkFounder "Alice" "p") "q"
        [("Alice", "a"), ("Bob", "b"), ("Carol", "c")] 1 (fun _ => "Nobody\nwhy") 3 "t"
        false).voted_for
      ∈ (availableOf false "Alice" [("Alice", "a"), ("Bob", "b"), ("Carol", "c")]).map Prod.fst) :=
  ⟨by decide,
    (claim_C5_vote_in_candidates (mkFounder "Alice" "p") "q"
      [("Alice", "a"), ("Bob", "b"), ("Carol", "c")] 1 (fun _ => "Nobody\nwhy") 3 "t"
      false (by decide)).1⟩

/-! ### C6 -/

/-- C6: when the candidate set after self-exclusion is empty (self-voting
disallowed and only the own answer offered), `vote_on_answers` returns the
own name with the fixed sentinel justification, leaves the agent untouched,
and performs zero generator calls. -/
theorem claim_C6_empty_candidates_self_fallback (ag : Agent) (question : String)
    (answers : List (String × String)) (round_num : Nat) (llm : String → String)
    (rand : Nat) (now : String) (allow : Bool)
    (hE : availableOf allow ag.name answers = []) :
    vote_on_answers ag question answers round_num llm rand now allow
      = { voted_for := ag.name, justification := "No other options available.",
          agent := ag, llm_calls := 0 } := by
  unfold vote_on_answers
  rw [hE]
  rfl

/-- Witness for C6: self-voting disabled and the own answer as the only
answer; no generator call is made. -/
theorem claim_C6_empty_candidates_self_fallback_witness :
    availableOf false "Alice" [("Alice", "a")] = [] ∧
    vote_on_answers (mkFounder "Alice" "p") "q" [("Alice", "a")] 1
        (fun _ => "Bob\nok") 0 "t" false
      = { voted_for := "Alice", justification := "No other options available.",
          agent := mkFounder "Alice" "p", llm_calls := 0 } :=
  ⟨by decide,
    claim_C6_empty_candidates_self_fallback (mkFounder "Alice" "p") "q"
      [("Alice", "a")] 1 (fun _ => "Bob\nok") 0 "t" false (by decide)⟩

/-! ### C7 -/

/-- C7 counterexample: on the empty-candidate-set self-fallback path,
`vote_on_answers` neither increments the votes-cast counter nor appends a
vote record, contradicting the claim that every path does both. -/
theorem claim_C7_counterexample :
    (vote_on_answers (mkFounder "Alice" "p") "q" [("Alice", "a")] 1
        (fun _ => "Bob\nok") 0 "t" false).agent.votes_cast
      ≠ (mkFounder "Alice" "p").votes_cast + 1 ∧
    (vote_on_answers (mkFounder "Alice" "p") "q" [("Alice", "a")] 1
        (fun _ => "Bob\nok") 0 "t" false).agent.memory.length
      ≠ (mkFounder "Alice" "p").memory.length + 1 := by
  constructor <;> decide

/-- C7 as amended: on every call whose candidate set after self-exclusion is
non-empty, `vote_on_answers` increments the votes-cast counter by exactly one
and appends exactly one vote record to the history (subject to the buffer
cap); on the empty-candidate self-fallback path the agent is returned
unchanged. -/
theorem claim_C7_amended_vote_counters (ag : Agent) (question : String)
    (answers : List (String × String)) (round_num : Nat) (llm : String → String)
    (rand : Nat) (now : String) (allow : Bool) :
    (availableOf allow ag.name answers = [] →
      (vote_on_answers ag question answers round_num llm rand now allow).agent = ag) ∧
    (availableOf allow ag.name answers ≠ [] →
      (vote_on_answers ag question answers round_num llm rand now allow).agent.votes_cast
        = ag.votes_cast + 1 ∧
      ∃ e : MemoryEntry, e.mtype = "vote" ∧
        (vote_on_answers ag question answers round_num llm rand now allow).agent.memory
          = (ag.memory ++ [e]).rtake MAX_MEMORY_SIZE) := by
  constructor
  · intro hE
    unfold vote_on_answers
    rw [hE]
    rfl
  · intro hne
    have hE : (availableOf allow ag.name answers).isEmpty = false := by
      cases h : availableOf allow ag.name answers with
      | nil => exact absurd h hne
      | cons a l => rfl
    unfold vote_on_answers
    set av := availableOf allow ag.name answers with hav
    simp only [hE, Bool.false_eq_true, if_false]
    set voted := pyStrip (splitOnce (pyStrip (llm (votingPrompt ag question av))) '\n').1 with hvoted
    by_cases hany : av.any (fun kv => kv.1 == voted)
    · simp only [hany, if_true]
      refine ⟨rfl, ⟨_, ?_, add_memory_memory ag "vote" _ round_num now⟩⟩
      rfl
    · rw [Bool.not_eq_true] at hany
      simp only [hany, Bool.false_eq_true, if_false]
      refine ⟨rfl, ⟨_, ?_, add_memory_memory ag "vote" _ round_num now⟩⟩
      rfl

/-- Witness for C7 as amended: a non-empty candidate set increments
votes-cast and appends one record; the fallback leaves the agent unchanged. -/
theorem claim_C7_amended_vote_counters_witness :
    (availableOf false "Alice" [("Alice", "a"), ("Bob", "b")] ≠ []) ∧
    ((vote_on_answers (mkFounder "Alice" "p") "q" [("Alice", "a"), ("Bob", "b")] 1
        (fun _ => "Bob\nok") 0 "t" false).agent.votes_cast
      = (mkFounder "Alice" "p").votes_cast + 1 ∧
      ∃ e : MemoryEntry, e.mtype = "vote" ∧
        (vote_on_answers (mkFounder "Alice" "p") "q" [("Alice", "a"), ("Bob", "b")] 1
            (fun _ => "Bob\nok") 0 "t" false).agent.memory
          = ((mkFounder "Alice" "p").memory ++ [e]).rtake MAX_MEMORY_SIZE) :=
  ⟨by decide,
    (claim_C7_amended_vote_counters (mkFounder "Alice" "p") "q"
      [("Alice", "a"), ("Bob", "b")] 1 (fun _ => "Bob\nok") 0 "t" false).2 (by decide)⟩

/-! ### Elimination lemmas -/

theorem eliminate_agent_not_found : ∀ (pop : List Agent) (loser : String),
    (∀ a ∈ pop, a.name ≠ loser) → eliminate_agent pop loser = (none, pop)
  | [], _, _ => rfl
  | a :: rest, loser, h => by
    have ha : a.name ≠ loser := h a (List.mem_cons_self a rest)
    have hbeq : (a.name == loser) = false := by
      rw [beq_eq_false_iff_ne]
      exact ha
    have ih := eliminate_agent_not_found rest loser
      (fun b hb => h b (List.mem_cons_of_mem a hb))
    simp only [eliminate_agent, hbeq, Bool.false_eq_true, if_false, ih]

theorem eliminate_agent_found : ∀ (pop : List Agent) (loser : String),
    (∃ a ∈ pop, a.name = loser) →
    ∃ pre a post, pop = pre ++ a :: post ∧ a.name = loser ∧
      (∀ b ∈ pre, b.name ≠ loser) ∧
      eliminate_agent pop loser = (some a, pre ++ post)
  | [], loser, h => by simp at h
  | a :: rest, loser, h => by
    by_cases ha : a.name = loser
    · refine ⟨[], a, rest, by simp, ha, by simp, ?_⟩
      have hbeq : (a.name == loser) = true := beq_iff_eq.mpr ha
      simp only [eliminate_agent, hbeq, if_true, List.nil_append]
    · obtain ⟨b, hb, hbname⟩ := h
      have hbrest : b ∈ rest := by
        cases List.mem_cons.mp hb with
        | inl heq => exact absurd (heq ▸ hbname) ha
        | inr h2 => exact h2
      obtain ⟨pre, c, post, hsplit, hcname, hpre, helim⟩ :=
        eliminate_agent_found rest loser ⟨b, hbrest, hbname⟩
      refine ⟨a :: pre, c, post, by rw [hsplit]; rfl, hcname, ?_, ?_⟩
      · intro x hx
        cases List.mem_cons.mp hx with
        | inl heq => exact heq ▸ ha
        | inr h2 => exact hpre x h2
      · have hbeq : (a.name == loser) = false := by
          rw [beq_eq_false_iff_ne]
          exact ha
        simp only [eliminate_agent, hbeq, Bool.false_eq_true, if_false, helim,
          List.cons_append]

/-! ### C9 -/

/-- C9: `eliminate_agent` removes the first population entry with the loser
name and returns it, leaving every other entry unchanged in order; when no
entry matches, it returns `none` and the population unchanged (no error). -/
theorem claim_C9_eliminate_first_match_or_noop (pop : List Agent) (loser : String) :
    ((∀ a ∈ pop, a.name ≠ loser) ∧ eliminate_agent pop loser = (none, pop)) ∨
    (∃ pre a post, pop = pre ++ a :: post ∧ a.name = loser ∧
      (∀ b ∈ pre, b.name ≠ loser) ∧
      eliminate_agent pop loser = (some a, pre ++ post)) := by
  by_cases h : ∃ a ∈ pop, a.name = loser
  · exact Or.inr (eliminate_agent_found pop loser h)
  · push_neg at h
    exact Or.inl ⟨h, eliminate_agent_not_found pop loser h⟩

/-- Witness for C9 at a concrete population: the first of two same-named
agents is removed and returned, and a missing name is a no-op. -/
theorem claim_C9_eliminate_first_match_or_noop_witness :
    (((∀ a ∈ [mkFounder "A" "x", mkFounder "B" "y"], a.name ≠ "B") ∧
        eliminate_agent [mkFounder "A" "x", mkFounder "B" "y"] "B"
          = (none, [mkFounder "A" "x", mkFounder "B" "y"])) ∨
      (∃ pre a post,
        [mkFounder "A" "x", mkFounder "B" "y"] = pre ++ a :: post ∧ a.name = "B" ∧
        (∀ b ∈ pre, b.name ≠ "B") ∧
        eliminate_agent [mkFounder "A" "x", mkFounder "B" "y"] "B"
          = (some a, pre ++ post))) ∧
    eliminate_agent [mkFounder "A" "x", mkFounder "B" "y"] "B"
      = (some (mkFounder "B" "y"), [mkFounder "A" "x"]) ∧
    eliminate_agent [mkFounder "A" "x", mkFounder "B" "y"] "Z"
      = (none, [mkFounder "A" "x", mkFounder "B" "y"]) :=
  ⟨claim_C9_eliminate_first_match_or_noop [mkFounder "A" "x", mkFounder "B" "y"] "B",
    by decide, by decide⟩

/-! ### Ranked-points lemmas -/

/-- Python `points[x]` read on the ranked tally (0.0 when absent). -/
def lookupInt (t : List (String × Int)) (x : String) : Int :=
  ((t.find? (fun kv => kv.1 == x)).map Prod.snd).getD 0

/-- The total of all tally values. -/
def tallySum (t : List (String × Int)) : Int := (t.map Prod.snd).sum

/-- Points candidate `x` collects from one ranking when the enumeration
starts at `idx`: `num_candidates - position` at every 0-based position that
holds `x`. -/
def positionalPoints (c : Nat) (x : String) : Nat → List String → Int
  | _, [] => 0
  | idx, name :: rest =>
    (if name = x then (c : Int) - (idx : Int) else 0)
      + positionalPoints c x (idx + 1) rest

/-- The total awarded by one ranking when the enumeration starts at `idx`. -/
def awardedTotal (c : Nat) : Nat → List String → Int
  | _, [] => 0
  | idx, _ :: rest => ((c : Int) - (idx : Int)) + awardedTotal c (idx + 1) rest

theorem lookupInt_tallyAddInt : ∀ (t : List (String × Int)) (k : String)
    (v : Int) (x : String),
    lookupInt (tallyAddInt t k v) x = lookupInt t x + (if k = x then v else 0)
  | [], k, v, x => by
    by_cases h : k = x
    · simp [lookupInt, tallyAddInt, List.find?, h]
    · have hbeq : (k == x) = false := by rw [beq_eq_false_iff_ne]; exact h
      simp [lookupInt, tallyAddInt, List.find?, hbeq, h]
  | kv :: rest, k, v, x => by
    by_cases h1 : kv.1 = k
    · have hbeq1 : (kv.1 == k) = true := beq_iff_eq.mpr h1
      by_cases h2 : kv.1 = x
      · have hbeq2 : (kv.1 == x) = true := beq_iff_eq.mpr h2
        have hkx : k = x := h1 ▸ h2
        simp [lookupInt, tallyAddInt, List.find?, hbeq1, hbeq2, hkx]
      · have hbeq2 : (kv.1 == x) = false := by rw [beq_eq_false_iff_ne]; exact h2
        have hkx : ¬ (k = x) := fun h => h2 (h1 ▸ h)
        simp [lookupInt, tallyAddInt, List.find?, hbeq1, hbeq2, hkx]
    · have hbeq1 : (kv.1 == k) = false := by rw [beq_eq_false_iff_ne]; exact h1
      by_cases h2 : kv.1 = x
      · have hbeq2 : (kv.1 == x) = true := beq_iff_eq.mpr h2
        have hkx : ¬ (k = x) := fun h => h1 (h ▸ h2)
        simp [lookupInt, tallyAddInt, List.find?, hbeq1, hbeq2, hkx]
      · have hbeq2 : (kv.1 == x) = false := by rw [beq_eq_false_iff_ne]; exact h2
        have ih := lookupInt_tallyAddInt rest k v x
        simp only [tallyAddInt, hbeq1, Bool.false_eq_true, if_false]
        simp only [lookupInt, List.find?, hbeq2] at ih ⊢
        exact ih

theorem tallySum_tallyAddInt : ∀ (t : List (String × Int)) (k : String) (v : Int),
    tallySum (tallyAddInt t k v) = tallySum t + v
  | [], k, v => by simp [tallySum, tallyAddInt]
  | kv :: rest, k, v => by
    by_cases h : kv.1 = k
    · have hbeq : (kv.1 == k) = true := beq_iff_eq.mpr h
      simp only [tallySum, tallyAddInt, hbeq, if_true, List.map_cons, List.sum_cons]
      ring
    · have hbeq : (kv.1 == k) = false := by rw [beq_eq_false_iff_ne]; exact h
      have ih := tallySum_tallyAddInt rest k v
      simp only [tallySum, tallyAddInt, hbeq, Bool.false_eq_true, if_false,
        List.map_cons, List.sum_cons] at ih ⊢
      rw [ih]
      ring

theorem awardRankingAux_lookup (c : Nat) (x : String) :
    ∀ (r : List String) (t : List (String × Int)) (idx : Nat),
    lookupInt (awardRankingAux c t idx r) x
      = lookupInt t x + positionalPoints c x idx r
  | [], t, idx => by simp [awardRankingAux, positionalPoints]
  | name :: rest, t, idx => by
    have ih := awardRankingAux_lookup c x rest
      (tallyAddInt t name ((c : Int) - (idx : Int))) (idx + 1)
    simp only [awardRankingAux, positionalPoints] at ih ⊢
    rw [ih, lookupInt_tallyAddInt]
    by_cases h : name = x
    · simp [h]
      ring
    · simp [h]

theorem awardRankingAux_sum (c : Nat) :
    ∀ (r : List String) (t : List (String × Int)) (idx : Nat),
    tallySum (awardRankingAux c t idx r) = tallySum t + awardedTotal c idx r
  | [], t, idx => by simp [awardRankingAux, awardedTotal]
  | name :: rest, t, idx => by
    have ih := awardRankingAux_sum c rest
      (tallyAddInt t name ((c : Int) - (idx : Int))) (idx + 1)
    simp only [awardRankingAux, awardedTotal] at ih ⊢
    rw [ih, tallySum_tallyAddInt]
    ring

theorem awardedTotal_len (c : Nat) : ∀ (r : List String) (idx : Nat),
    awardedTotal c idx r
      = ∑ j in Finset.range r.length, ((c : Int) - (idx : Int) - (j : Int))
  | [], idx => by simp [awardedTotal]
  | name :: rest, idx => by
    have ih := awardedTotal_len c rest (idx + 1)
    simp only [awardedTotal, List.length_cons]
    rw [ih, Finset.sum_range_succ']
    have hcongr : ∑ j in Finset.range rest.length,
        ((c : Int) - ((idx + 1 : Nat) : Int) - (j : Int))
      = ∑ j in Finset.range rest.length,
        ((c : Int) - (idx : Int) - ((j + 1 : Nat) : Int)) := by
      refine Finset.sum_congr rfl (fun j _ => ?_)
      push_cast
      ring
    rw [hcongr]
    push_cast
    ring

/-! ### C4 -/

/-- C4: the ranked tally awards points positionally with
`c = len(answers)`: the candidate at 0-based position `idx` of a ranking
receives `c - idx` points on top of any previously accumulated points (so
points add up across voters), and a single ranking covering all `c`
candidates awards a total of `c + (c-1) + ... + 1` points. -/
theorem claim_C4_ranked_positional_points (c : Nat) :
    (∀ (t : List (String × Int)) (r : List String) (x : String),
      lookupInt (awardRanking t c r) x = lookupInt t x + positionalPoints c x 0 r) ∧
    (∀ (rankings : List (List String)) (x : String),
      lookupInt (awardPoints rankings c) x
        = (rankings.map (positionalPoints c x 0)).sum) ∧
    (∀ r : List String, r.length = c →
      tallySum (awardRanking [] c r) = ∑ i in Finset.range c, ((i : Int) + 1)) := by
  refine ⟨?_, ?_, ?_⟩
  · intro t r x
    exact awardRankingAux_lookup c x r t 0
  · intro rankings x
    suffices hgen : ∀ (rs : List (List String)) (t : List (String × Int)),
        lookupInt (rs.foldl (fun t r => awardRanking t c r) t) x
          = lookupInt t x + (rs.map (positionalPoints c x 0)).sum by
      have h := hgen rankings []
      simpa [awardPoints, lookupInt] using h
    intro rs
    induction rs with
    | nil => intro t; simp
    | cons r rest ih =>
      intro t
      simp only [List.foldl_cons, List.map_cons, List.sum_cons]
      rw [ih, awardRanking, awardRankingAux_lookup c x r t 0]
      ring
  · intro r hlen
    have hsum := awardRankingAux_sum c r [] 0
    have htot := awardedTotal_len c r 0
    rw [awardRanking, hsum, htot, hlen]
    have : ∀ j ∈ Finset.range c, ((c : Int) - (0 : Nat) - (j : Int))
        = (((c - 1 - j : Nat) : Int) + 1) := by
      intro j hj
      rw [Finset.mem_range] at hj
      have h1 : j ≤ c - 1 := by omega
      have h2 : 1 ≤ c := by omega
      push_cast [Nat.sub_sub, Nat.cast_sub (by omega : 1 + j ≤ c)]
      ring
    rw [Finset.sum_congr rfl this, Finset.sum_range_reflect (fun i => ((i : Int) + 1)) c]
    simp [tallySum]

/-- Witness for C4: a single voter ranking three candidates over three
answers awards 3 + 2 + 1 = 6 points. -/
theorem claim_C4_ranked_positional_points_witness :
    (["A", "B", "C"] : List String).length = 3 ∧
    tallySum (awardRanking [] 3 ["A", "B", "C"]) = ∑ i in Finset.range 3, ((i : Int) + 1) :=
  ⟨by decide, (claim_C4_ranked_positional_points 3).2.2 ["A", "B", "C"] (by decide)⟩

/-! ### C3 -/

/-- C3 evaluated at the failing input: with 2 seeds and population size 4 the
padding loop indexes `personalities[len % len] = personalities[0]` on every
iteration, so the created agents use the seeds `[0, 1, 0, 0]` - not the
claimed cyclic `[0, 1, 0, 1]` (agent 3 would have to use seed `3 mod 2 = 1`,
the Bob seed); with an empty seed list and a positive population size the
code raises `ZeroDivisionError` instead of never failing. -/
theorem claim_C3_padding_indexes_zero :
    (initialize_agents 4 "llama2"
        [{ name := "Alice", personality := "pa" }, { name := "Bob", personality := "pb" }]).map
        (fun l => l.map Agent.name)
      = some ["Alice", "Bob", "Alice", "Alice"] ∧
    initialize_agents 4 "llama2" [] = none := by
  constructor <;> decide

/-! ### C1 -/

/-- C1 evaluated at the failing input: a single-choice vote among three
candidates in which Carol receives zero votes.  The tally keys are
`["Bob", "Alice"]`: the candidate Carol, although offered in the answer set,
has no tally entry, contradicting the claimed key-set equality (a
`defaultdict(int)` only materialises keys that receive a vote). -/
theorem claim_C1_zero_vote_candidate_missing :
    ((single_choice_vote
        [mkFounder "Alice" "", mkFounder "Bob" "", mkFounder "Carol" ""] "q"
        [("Alice", "a"), ("Bob", "b"), ("Carol", "c")] 1
        (fun p => if pyStartsWith p "You are Alice" then "Bob\nok" else "Alice\nok")
        (fun _ => 0) "t" false).2).votes.map Prod.fst = ["Bob", "Alice"] ∧
    "Carol" ∈ ([("Alice", "a"), ("Bob", "b"), ("Carol", "c")].map
      (Prod.fst (β := String))) ∧
    "Carol" ∉ ((single_choice_vote
        [mkFounder "Alice" "", mkFounder "Bob" "", mkFounder "Carol" ""] "q"
        [("Alice", "a"), ("Bob", "b"), ("Carol", "c")] 1
        (fun p => if pyStartsWith p "You are Alice" then "Bob\nok" else "Alice\nok")
        (fun _ => 0) "t" false).2).votes.map Prod.fst := by
  refine ⟨by decide, by decide, by decide⟩

/-! ### Population-invariant lemmas for `run_round` -/

theorem generate_answer_name (ag : Agent) (q : String) (r : Nat)
    (llm : String → String) (now : String) :
    (generate_answer ag q r llm now).2.name = ag.name := rfl

theorem vote_on_answers_agent_name (ag : Agent) (question : String)
    (answers : List (String × String)) (round_num : Nat) (llm : String → String)
    (rand : Nat) (now : String) (allow : Bool) :
    (vote_on_answers ag question answers round_num llm rand now allow).agent.name
      = ag.name := by
  unfold vote_on_answers
  by_cases hE : (availableOf allow ag.name answers).isEmpty
  · simp [hE]
  · simp only [hE, Bool.false_eq_true, if_false]
    rfl

theorem tallyIncr_ne_nil : ∀ (t : List (String × Nat)) (k : String),
    tallyIncr t k ≠ []
  | [], k => by simp [tallyIncr]
  | kv :: rest, k => by
    by_cases h : kv.1 = k
    · simp [tallyIncr, beq_iff_eq.mpr h]
    · have hbeq : (kv.1 == k) = false := by rw [beq_eq_false_iff_ne]; exact h
      simp [tallyIncr, hbeq]

theorem tallyIncr_keys_sub : ∀ (t : List (String × Nat)) (k : String) (x : String),
    x ∈ (tallyIncr t k).map Prod.fst → x = k ∨ x ∈ t.map Prod.fst
  | [], k, x => by
    simp [tallyIncr]
  | kv :: rest, k, x => by
    by_cases h : kv.1 = k
    · simp only [tallyIncr, beq_iff_eq.mpr h, if_true, List.map_cons, List.mem_cons]
      rintro (hx | hx)
      · exact Or.inr (Or.inl hx)
      · exact Or.inr (Or.inr hx)
    · have hbeq : (kv.1 == k) = false := by rw [beq_eq_false_iff_ne]; exact h
      simp only [tallyIncr, hbeq, Bool.false_eq_true, if_false, List.map_cons,
        List.mem_cons]
      rintro (hx | hx)
      · exact Or.inr (Or.inl hx)
      · rcases tallyIncr_keys_sub rest k x hx with h1 | h1
        · exact Or.inl h1
        · exact Or.inr (Or.inr h1)

theorem minByValue_mem {β : Type} [LT β] [DecidableRel (α := β) (· < ·)] :
    ∀ (l : List (String × β)), l ≠ [] →
    ∃ kv ∈ l, minByValue l = some kv
  | [], h => absurd rfl h
  | kv0 :: rest, _ => by
    suffices haux : ∀ (r : List (String × β)) (b : String × β),
        r.foldl (fun best x => if x.2 < best.2 then x else best) b ∈ b :: r by
      rcases List.mem_cons.mp (haux rest kv0) with h | h
      · exact ⟨kv0, List.mem_cons_self _ _, by simp [minByValue, h]⟩
      · exact ⟨_, List.mem_cons_of_mem _ h, rfl⟩
    intro r
    induction r with
    | nil => intro b; simp
    | cons x rest ih =>
      intro b
      simp only [List.foldl_cons]
      rcases List.mem_cons.mp (ih (if x.2 < b.2 then x else b)) with h | h
      · by_cases hc : x.2 < b.2
        · rw [if_pos hc] at h ⊢
          rw [h]
          exact List.mem_cons_of_mem _ (List.mem_cons_self _ _)
        · rw [if_neg hc] at h ⊢
          rw [h]
          exact List.mem_cons_self _ _
      · exact List.mem_cons_of_mem _ (List.mem_cons_of_mem _ h)

theorem dictInsert_keys_sub {α : Type} : ∀ (d : List (String × α)) (k : String)
    (v : α) (x : String),
    x ∈ (dictInsert d k v).map Prod.fst → x = k ∨ x ∈ d.map Prod.fst
  | [], k, v, x => by simp [dictInsert]
  | kv :: rest, k, v, x => by
    by_cases h : kv.1 = k
    · simp only [dictInsert, beq_iff_eq.mpr h, if_true, List.map_cons, List.mem_cons]
      rintro (hx | hx)
      · exact Or.inr (Or.inl hx)
      · exact Or.inr (Or.inr hx)
    · have hbeq : (kv.1 == k) = false := by rw [beq_eq_false_iff_ne]; exact h
      simp only [dictInsert, hbeq, Bool.false_eq_true, if_false, List.map_cons,
        List.mem_cons]
      rintro (hx | hx)
      · exact Or.inr (Or.inl hx)
      · rcases dictInsert_keys_sub rest k v x hx with h1 | h1
        · exact Or.inl h1
        · exact Or.inr (Or.inr h1)

theorem collectAnswers_spec (q : String) (n : Nat) (llm : String → String)
    (now : String) : ∀ (agents : List Agent)
    (acc : List Agent × List (String × String)),
    ((collectAnswers q n llm now agents acc).1.map Agent.name
      = acc.1.map Agent.name ++ agents.map Agent.name) ∧
    (∀ x ∈ (collectAnswers q n llm now agents acc).2.map Prod.fst,
      x ∈ acc.2.map Prod.fst ∨ x ∈ agents.map Agent.name)
  | [], acc => by simp [collectAnswers]
  | agent :: rest, acc => by
    have ih := collectAnswers_spec q n llm now rest
      (acc.1 ++ [(generate_answer agent q n llm now).2],
        dictInsert acc.2 (generate_answer agent q n llm now).2.name
          (generate_answer agent q n llm now).1)
    have hstep : collectAnswers q n llm now (agent :: rest) acc
        = collectAnswers q n llm now rest
          (acc.1 ++ [(generate_answer agent q n llm now).2],
            dictInsert acc.2 (generate_answer agent q n llm now).2.name
              (generate_answer agent q n llm now).1) := rfl
    rw [hstep]
    constructor
    · rw [ih.1]
      simp [generate_answer_name]
    · intro x hx
      rcases ih.2 x hx with h1 | h1
      · rcases dictInsert_keys_sub _ _ _ _ h1 with h2 | h2
        · rw [generate_answer_name] at h2
          exact Or.inr (by simp [h2])
        · exact Or.inl h2
      · exact Or.inr (by simp [h1])

theorem singleVoteLoop_spec (q : String) (answers : List (String × String))
    (n : Nat) (llm : String → String) (rand : Nat → Nat) (now : String)
    (allow : Bool) : ∀ (agents : List Agent) (st : SingleVoteState),
    ((singleVoteLoop q answers n llm rand now allow agents st).agents.map Agent.name
      = st.agents.map Agent.name ++ agents.map Agent.name) ∧
    (∀ x ∈ (singleVoteLoop q answers n llm rand now allow agents st).votes.map Prod.fst,
      x ∈ st.votes.map Prod.fst ∨ x ∈ agents.map Agent.name ∨ x ∈ answers.map Prod.fst) ∧
    ((st.votes ≠ [] ∨ agents ≠ []) →
      (singleVoteLoop q answers n llm rand now allow agents st).votes ≠ [])
  | [], st => by
    refine ⟨by simp [singleVoteLoop], fun x hx => Or.inl hx, ?_⟩
    rintro (h | h)
    · exact h
    · exact absurd rfl h
  | agent :: rest, st => by
    set o := vote_on_answers agent q answers n llm (rand st.idx) now allow with ho
    set st2 : SingleVoteState :=
      { agents := st.agents ++ [o.agent],
        votes := tallyIncr st.votes o.voted_for,
        vote_details := st.vote_details ++
          [{ voter := agent.name, voted_for := o.voted_for, justification := o.justification }],
        justifications := multiMapAdd st.justifications o.voted_for
          (agent.name ++ ": " ++ o.justification),
        idx := st.idx + 1 } with hst2
    have ih := singleVoteLoop_spec q answers n llm rand now allow rest st2
    have hstep : singleVoteLoop q answers n llm rand now allow (agent :: rest) st
        = singleVoteLoop q answers n llm rand now allow rest st2 := rfl
    rw [hstep]
    have hname : o.agent.name = agent.name := by
      rw [ho]
      exact vote_on_answers_agent_name agent q answers n llm (rand st.idx) now allow
    refine ⟨?_, ?_, ?_⟩
    · rw [ih.1, hst2]
      simp [hname]
    · intro x hx
      rcases ih.2.1 x hx with h1 | h1 | h1
      · rw [hst2] at h1
        rcases tallyIncr_keys_sub _ _ _ h1 with h2 | h2
        · have hv := vote_on_answers_voted_for_mem agent q answers n llm (rand st.idx) now allow
          rw [← ho, ← h2] at hv
          rcases List.mem_cons.mp hv with h3 | h3
          · exact Or.inr (Or.inl (by simp [h3]))
          · exact Or.inr (Or.inr h3)
        · exact Or.inl h2
      · exact Or.inr (Or.inl (List.mem_cons_of_mem _ h1))
      · exact Or.inr (Or.inr h1)
    · intro _
      refine ih.2.2 (Or.inl ?_)
      rw [hst2]
      exact tallyIncr_ne_nil _ _

theorem single_choice_vote_spec (agents : List Agent) (q : String)
    (answers : List (String × String)) (n : Nat) (llm : String → String)
    (rand : Nat → Nat) (now : String) (allow : Bool) :
    ((single_choice_vote agents q answers n llm rand now allow).1.map Agent.name
      = agents.map Agent.name) ∧
    (∀ x ∈ (single_choice_vote agents q answers n llm rand now allow).2.votes.map Prod.fst,
      x ∈ agents.map Agent.name ∨ x ∈ answers.map Prod.fst) ∧
    (agents ≠ [] →
      (single_choice_vote agents q answers n llm rand now allow).2.votes ≠ []) ∧
    ((single_choice_vote agents q answers n llm rand now allow).2.method
      = "single-choice") := by
  have hloop := singleVoteLoop_spec q answers n llm rand now allow agents
    { agents := [], votes := [], vote_details := [], justifications := [], idx := 0 }
  refine ⟨?_, ?_, ?_, rfl⟩
  · have hmap : ∀ (f : Agent → Agent), (∀ a, (f a).name = a.name) →
        ∀ l : List Agent, (l.map f).map Agent.name = l.map Agent.name := by
      intro f hf l
      rw [List.map_map]
      exact List.map_congr_left (fun a _ => hf a)
    show ((singleVoteLoop q answers n llm rand now allow agents
        { agents := [], votes := [], vote_details := [], justifications := [],
          idx := 0 }).agents.map _).map Agent.name = _
    rw [hmap _ (fun a => by split <;> rfl) _, hloop.1]
    simp
  · intro x hx
    rcases hloop.2.1 x hx with h | h | h
    · simp at h
    · exact Or.inl h
    · exact Or.inr h
  · intro hne
    exact hloop.2.2 (Or.inr hne)

theorem rotate_mem {α : Type} (l : List α) (r : Nat) :
    ∀ x ∈ rotate l r, x ∈ l := by
  intro x hx
  rcases List.mem_append.mp hx with h | h
  · exact List.mem_of_mem_drop h
  · exact List.mem_of_mem_take h

theorem rotate_ne_nil {α : Type} (l : List α) (r : Nat) (h : l ≠ []) :
    rotate l r ≠ [] := by
  intro h0
  have hlen : (rotate l r).length = l.length := by
    simp only [rotate, List.length_append, List.length_drop, List.length_take]
    have := Nat.mod_lt r (List.length_pos.mpr h)
    omega
  rw [h0] at hlen
  simp at hlen
  exact h (List.length_eq_zero.mp hlen.symm)

theorem parseRankedLine_ranked (av : List (String × String)) (st : ParsedRanking)
    (line0 : String) :
    (parseRankedLine av st line0).ranked_list = st.ranked_list ∨
    ∃ nm, (parseRankedLine av st line0).ranked_list = st.ranked_list ++ [nm] ∧
      nm ∈ av.map Prod.fst := by
  simp only [parseRankedLine]
  split
  · split <;> exact Or.inl rfl
  · split
    · split
      · split
        · next hmem =>
          refine Or.inr ⟨_, rfl, ?_⟩
          rw [List.any_eq_true] at hmem
          obtain ⟨kv, hkv, hbeq⟩ := hmem
          rw [← eq_of_beq hbeq]
          exact List.mem_map_of_mem Prod.fst hkv
        · exact Or.inl rfl
      · exact Or.inl rfl
    · exact Or.inl rfl

theorem parseLoop_ranked (av : List (String × String)) :
    ∀ (lines : List String) (st : ParsedRanking),
    ∀ x ∈ (lines.foldl (parseRankedLine av) st).ranked_list,
      x ∈ st.ranked_list ∨ x ∈ av.map Prod.fst
  | [], st => fun x hx => Or.inl hx
  | line :: rest, st => by
    intro x hx
    have ih := parseLoop_ranked av rest (parseRankedLine av st line) x
      (by simpa using hx)
    rcases ih with h | h
    · rcases parseRankedLine_ranked av st line with h1 | ⟨nm, h1, hnm⟩
      · rw [h1] at h
        exact Or.inl h
      · rw [h1] at h
        rcases List.mem_append.mp h with h2 | h2
        · exact Or.inl h2
        · simp at h2
          rw [h2]
          exact Or.inr hnm
    · exact Or.inr h

theorem get_agent_rankings_spec (allow : Bool) (agent : Agent) (q : String)
    (answers : List (String × String)) (n : Nat) (llm : String → String)
    (rand : Nat) :
    (get_agent_rankings allow agent q answers n llm rand).1 ≠ [] ∧
    ∀ x ∈ (get_agent_rankings allow agent q answers n llm rand).1,
      x = agent.name ∨ x ∈ answers.map Prod.fst := by
  have hsub := availableOf_keys_subset allow agent.name answers
  unfold get_agent_rankings
  by_cases hE : (availableOf allow agent.name answers).isEmpty
  · simp only [hE, if_true]
    exact ⟨by simp, by simp⟩
  · simp only [hE, Bool.false_eq_true, if_false]
    have hne : availableOf allow agent.name answers ≠ [] := by
      intro h0
      rw [h0] at hE
      simp at hE
    split
    · next hparse =>
      refine ⟨?_, ?_⟩
      · exact rotate_ne_nil _ _ (by
          intro h0
          rw [List.map_eq_nil_iff] at h0
          exact hne h0)
      · intro x hx
        exact Or.inr (hsub x (rotate_mem _ _ x hx))
    · next hparse =>
      refine ⟨by simpa using hparse, ?_⟩
      intro x hx
      rcases parseLoop_ranked _ _ _ x hx with h | h
      · simp at h
      · exact Or.inr (hsub x h)

theorem tallyAddInt_ne_nil : ∀ (t : List (String × Int)) (k : String) (v : Int),
    tallyAddInt t k v ≠ []
  | [], k, v => by simp [tallyAddInt]
  | kv :: rest, k, v => by
    by_cases h : kv.1 = k
    · simp [tallyAddInt, beq_iff_eq.mpr h]
    · have hbeq : (kv.1 == k) = false := by rw [beq_eq_false_iff_ne]; exact h
      simp [tallyAddInt, hbeq]

theorem tallyAddInt_keys_sub : ∀ (t : List (String × Int)) (k : String) (v : Int)
    (x : String),
    x ∈ (tallyAddInt t k v).map Prod.fst → x = k ∨ x ∈ t.map Prod.fst
  | [], k, v, x => by simp [tallyAddInt]
  | kv :: rest, k, v, x => by
    by_cases h : kv.1 = k
    · simp only [tallyAddInt, beq_iff_eq.mpr h, if_true, List.map_cons, List.mem_cons]
      rintro (hx | hx)
      · exact Or.inr (Or.inl hx)
      · exact Or.inr (Or.inr hx)
    · have hbeq : (kv.1 == k) = false := by rw [beq_eq_false_iff_ne]; exact h
      simp only [tallyAddInt, hbeq, Bool.false_eq_true, if_false, List.map_cons,
        List.mem_cons]
      rintro (hx | hx)
      · exact Or.inr (Or.inl hx)
      · rcases tallyAddInt_keys_sub rest k v x hx with h1 | h1
        · exact Or.inl h1
        · exact Or.inr (Or.inr h1)

theorem awardRankingAux_ne_nil (c : Nat) : ∀ (r : List String)
    (t : List (String × Int)) (idx : Nat),
    (t ≠ [] ∨ r ≠ []) → awardRankingAux c t idx r ≠ []
  | [], t, idx => by
    rintro (h | h)
    · exact h
    · exact absurd rfl h
  | name :: rest, t, idx => fun _ =>
    awardRankingAux_ne_nil c rest _ (idx + 1) (Or.inl (tallyAddInt_ne_nil _ _ _))

theorem awardRankingAux_keys_sub (c : Nat) : ∀ (r : List String)
    (t : List (String × Int)) (idx : Nat) (x : String),
    x ∈ (awardRankingAux c t idx r).map Prod.fst → x ∈ t.map Prod.fst ∨ x ∈ r
  | [], t, idx, x => fun h => Or.inl h
  | name :: rest, t, idx, x => by
    intro hx
    rcases awardRankingAux_keys_sub c rest _ (idx + 1) x hx with h | h
    · rcases tallyAddInt_keys_sub _ _ _ _ h with h1 | h1
      · exact Or.inr (by simp [h1])
      · exact Or.inl h1
    · exact Or.inr (List.mem_cons_of_mem _ h)

theorem awardFold_ne_nil (c : Nat) : ∀ (rankings : List (List String))
    (t : List (String × Int)),
    (t ≠ [] ∨ ∃ rk ∈ rankings, rk ≠ []) →
    rankings.foldl (fun t r => awardRanking t c r) t ≠ []
  | [], t => by
    rintro (h | ⟨rk, hrk, _⟩)
    · exact h
    · simp at hrk
  | rk0 :: rest, t => by
    rintro (h | ⟨rk, hrk, hrkne⟩)
    · exact awardFold_ne_nil c rest _
        (Or.inl (awardRankingAux_ne_nil c rk0 t 0 (Or.inl h)))
    · rcases List.mem_cons.mp hrk with h1 | h1
      · exact awardFold_ne_nil c rest _
          (Or.inl (awardRankingAux_ne_nil c rk0 t 0 (Or.inr (h1 ▸ hrkne))))
      · exact awardFold_ne_nil c rest _ (Or.inr ⟨rk, h1, hrkne⟩)

theorem awardFold_keys_sub (c : Nat) : ∀ (rankings : List (List String))
    (t : List (String × Int)) (x : String),
    x ∈ (rankings.foldl (fun t r => awardRanking t c r) t).map Prod.fst →
    x ∈ t.map Prod.fst ∨ ∃ rk ∈ rankings, x ∈ rk
  | [], t, x => fun h => Or.inl h
  | rk0 :: rest, t, x => by
    intro hx
    rcases awardFold_keys_sub c rest _ x hx with h | ⟨rk, hrk, hxrk⟩
    · rcases awardRankingAux_keys_sub c rk0 t 0 x h with h1 | h1
      · exact Or.inl h1
      · exact Or.inr ⟨rk0, List.mem_cons_self _ _, h1⟩
    · exact Or.inr ⟨rk, List.mem_cons_of_mem _ hrk, hxrk⟩

theorem rankedVoteLoop_spec (allow : Bool) (q : String)
    (answers : List (String × String)) (n : Nat) (llm : String → String)
    (rand : Nat → Nat) : ∀ (agents : List Agent) (st : RankedVoteState),
    (∀ rk ∈ (rankedVoteLoop allow q answers n llm rand agents st).rankings,
      rk ∈ st.rankings ∨ (rk ≠ [] ∧ ∀ x ∈ rk,
        x ∈ agents.map Agent.name ∨ x ∈ answers.map Prod.fst)) ∧
    ((st.rankings ≠ [] ∨ agents ≠ []) →
      (rankedVoteLoop allow q answers n llm rand agents st).rankings ≠ [])
  | [], st => by
    refine ⟨fun rk hrk => Or.inl hrk, ?_⟩
    rintro (h | h)
    · exact h
    · exact absurd rfl h
  | agent :: rest, st => by
    have hgar := get_agent_rankings_spec allow agent q answers n llm (rand st.idx)
    set g := get_agent_rankings allow agent q answers n llm (rand st.idx) with hg
    set st2 : RankedVoteState :=
      { rankings := st.rankings ++ [g.1],
        ranked_details := st.ranked_details ++
          [{ voter := agent.name, rankings := g.1, justification := g.2 }],
        idx := st.idx + 1 } with hst2
    have ih := rankedVoteLoop_spec allow q answers n llm rand rest st2
    have hstep : rankedVoteLoop allow q answers n llm rand (agent :: rest) st
        = rankedVoteLoop allow q answers n llm rand rest st2 := rfl
    rw [hstep]
    refine ⟨?_, ?_⟩
    · intro rk hrk
      rcases ih.1 rk hrk with h | ⟨hne, hmem⟩
      · rw [hst2] at h
        rcases List.mem_append.mp h with h1 | h1
        · exact Or.inl h1
        · simp only [List.mem_singleton] at h1
          refine Or.inr ⟨h1 ▸ hgar.1, ?_⟩
          intro x hx
          rcases hgar.2 x (h1 ▸ hx) with h2 | h2
          · exact Or.inl (by simp [h2])
          · exact Or.inr h2
      · refine Or.inr ⟨hne, ?_⟩
        intro x hx
        rcases hmem x hx with h2 | h2
        · exact Or.inl (List.mem_cons_of_mem _ h2)
        · exact Or.inr h2
    · intro _
      refine ih.2 (Or.inl ?_)
      rw [hst2]
      simp

theorem ranked_choice_vote_spec (agents : List Agent) (q : String)
    (answers : List (String × String)) (n : Nat) (llm : String → String)
    (rand : Nat → Nat) (allow : Bool) :
    ((ranked_choice_vote agents q answers n llm rand allow).1 = agents) ∧
    (∀ x ∈ (ranked_choice_vote agents q answers n llm rand allow).2.points.map Prod.fst,
      x ∈ agents.map Agent.name ∨ x ∈ answers.map Prod.fst) ∧
    (agents ≠ [] →
      (ranked_choice_vote agents q answers n llm rand allow).2.points ≠ []) ∧
    ((ranked_choice_vote agents q answers n llm rand allow).2.method
      = "ranked-choice") := by
  have hloop := rankedVoteLoop_spec allow q answers n llm rand agents
    { rankings := [], ranked_details := [], idx := 0 }
  refine ⟨rfl, ?_, ?_, rfl⟩
  · intro x hx
    rcases awardFold_keys_sub answers.length _ _ x hx with h | ⟨rk, hrk, hxrk⟩
    · simp at h
    · rcases hloop.1 rk hrk with h1 | ⟨_, h1⟩
      · simp at h1
      · exact h1 x hxrk
  · intro hne
    refine awardFold_ne_nil answers.length _ _ (Or.inr ?_)
    have hrne := hloop.2 (Or.inr hne)
    rcases List.exists_mem_of_ne_nil _ hrne with ⟨rk, hrk⟩
    rcases hloop.1 rk hrk with h1 | ⟨h1, _⟩
    · simp at h1
    · exact ⟨rk, hrk, h1⟩

theorem get_loser_mem_single (vr : VoteResult) (hm : vr.method = "single-choice")
    (hne : vr.votes ≠ []) : get_loser vr ∈ vr.votes.map Prod.fst := by
  obtain ⟨kv, hkv, hmin⟩ := minByValue_mem vr.votes hne
  unfold get_loser
  rw [hm]
  simp only [beq_self_eq_true, if_true, hmin]
  exact List.mem_map_of_mem Prod.fst hkv

theorem get_loser_mem_ranked (vr : VoteResult) (hm : vr.method = "ranked-choice")
    (hne : vr.points ≠ []) : get_loser vr ∈ vr.points.map Prod.fst := by
  obtain ⟨kv, hkv, hmin⟩ := minByValue_mem vr.points hne
  unfold get_loser
  rw [hm]
  have h1 : (("ranked-choice" : String) == "single-choice") = false := by decide
  have h2 : (("ranked-choice" : String) == "ranked-choice") = true := by decide
  simp only [h1, h2, Bool.false_eq_true, if_false, if_true, hmin]
  exact List.mem_map_of_mem Prod.fst hkv

theorem eliminate_agent_length_of_mem (pop : List Agent) (loser : String)
    (h : loser ∈ pop.map Agent.name) :
    (eliminate_agent pop loser).2.length + 1 = pop.length := by
  have hex : ∃ a ∈ pop, a.name = loser := by
    rcases List.mem_map.mp h with ⟨a, ha, hname⟩
    exact ⟨a, ha, hname⟩
  obtain ⟨pre, a, post, hsplit, _, _, helim⟩ := eliminate_agent_found pop loser hex
  rw [helim, hsplit]
  simp
  omega

theorem foldl_add_eq : ∀ (l : List Nat) (a : Nat), l.foldl (· + ·) a = a + l.sum
  | [], a => by simp
  | x :: rest, a => by
    simp only [List.foldl_cons, List.sum_cons]
    rw [foldl_add_eq rest (a + x)]
    omega

theorem length_le_sum_succ (f : Agent → Nat) :
    ∀ l : List Agent, l.length ≤ (l.map (fun a => f a + 1)).sum
  | [] => by simp
  | a :: rest => by
    simp only [List.length_cons, List.map_cons, List.sum_cons]
    have := length_le_sum_succ f rest
    omega

theorem weightedChoiceAux_isSome : ∀ (agents : List Agent) (weights : List Nat)
    (t : Nat), agents.length = weights.length → t < weights.sum →
    (weightedChoiceAux (agents.zip weights) t).isSome = true
  | [], weights, t, hlen, hsum => by
    have : weights = [] := List.length_eq_zero.mp hlen.symm
    rw [this] at hsum
    simp at hsum
  | a :: rest, [], t, hlen, hsum => by simp at hsum
  | a :: rest, w :: ws, t, hlen, hsum => by
    simp only [List.zip_cons_cons, weightedChoiceAux]
    split
    · rfl
    · next hlt =>
      refine weightedChoiceAux_isSome rest ws (t - w) ?_ ?_
      · simpa using hlen
      · simp only [List.sum_cons] at hsum
        omega

theorem weightedChoice_isSome (agents : List Agent) (weights : List Nat) (r : Nat)
    (hlen : agents.length = weights.length) (hpos : 0 < weights.sum) :
    (weightedChoice agents weights r).isSome = true := by
  unfold weightedChoice
  rw [foldl_add_eq weights 0]
  simp only [Nat.zero_add]
  have hbeq : (weights.sum == 0) = false := by
    rw [beq_eq_false_iff_ne]
    omega
  simp only [hbeq, Bool.false_eq_true, if_false]
  exact weightedChoiceAux_isSome agents weights _ hlen (Nat.mod_lt _ hpos)

theorem select_parent_isSome (agents : List Agent) (r : Nat) (h : agents ≠ []) :
    (select_parent agents r).isSome = true := by
  simp only [select_parent]
  have hl : 0 < agents.length := List.length_pos.mpr h
  split
  · refine weightedChoice_isSome agents _ r (by simp) ?_
    calc 0 < agents.length := hl
    _ ≤ _ := length_le_sum_succ (fun a => a.rounds_survived) agents
  · refine weightedChoice_isSome agents _ r (by simp) ?_
    calc 0 < agents.length := hl
    _ ≤ _ := length_le_sum_succ (fun a => a.votes_received) agents

theorem create_evolved_agent_isSome (mutation_rate_pct : Nat)
    (mutation_traits : List String) (pop : List Agent) (round_num : Nat)
    (model : String) (o : EvoOracle) (h : pop ≠ []) :
    ∃ new, create_evolved_agent mutation_rate_pct mutation_traits pop round_num
      model o = some new := by
  have hE : pop.isEmpty = false := by
    cases h0 : pop with
    | nil => exact absurd h0 h
    | cons a l => rfl
  unfold create_evolved_agent
  simp only [hE, Bool.false_eq_true, if_false]
  obtain ⟨p, hp⟩ := Option.isSome_iff_exists.mp (select_parent_isSome pop o.rParent h)
  rw [hp]
  exact ⟨_, rfl⟩

/-! ### C2 -/

/-- C2: for either voting method and any population of at least two agents,
`run_round` completes and the active population size after it equals the size
before it - one agent is eliminated (the tally loser, always present) and
exactly one spawned agent is appended. -/
theorem claim_C2_population_size_invariant (voting_method : String)
    (allow_self_voting : Bool) (mutation_rate_pct : Nat)
    (mutation_traits : List String) (model : String) (agents : List Agent)
    (round_num : Nat) (question : String) (o : RoundOracle)
    (hm : voting_method = "single-choice" ∨ voting_method = "ranked-choice")
    (hn : 2 ≤ agents.length) :
    ∃ res, run_round voting_method allow_self_voting mutation_rate_pct
        mutation_traits model agents round_num question o = some res ∧
      res.agents.length = agents.length := by
  have hnames1 : (agents.map (fun a =>
      { a with rounds_survived := a.rounds_survived + 1 })).map Agent.name
      = agents.map Agent.name := by
    rw [List.map_map]
    exact List.map_congr_left (fun a _ => rfl)
  set agents1 := agents.map (fun a =>
    { a with rounds_survived := a.rounds_survived + 1 }) with hagents1
  have hca := collectAnswers_spec question round_num o.llm o.now agents1 ([], [])
  set phase1 := collectAnswers question round_num o.llm o.now agents1 ([], [])
    with hphase1
  have hnamesP : phase1.1.map Agent.name = agents.map Agent.name := by
    rw [hca.1]
    simpa using hnames1
  have hkeysP : ∀ x ∈ phase1.2.map Prod.fst, x ∈ agents.map Agent.name := by
    intro x hx
    rcases hca.2 x hx with h | h
    · simp at h
    · rw [← hnames1]
      exact h
  have hlenP : phase1.1.length = agents.length := by
    have := congrArg List.length hnamesP
    simpa using this
  have hP1ne : phase1.1 ≠ [] := by
    intro h0
    rw [h0] at hlenP
    simp at hlenP
    omega
  rcases hm with hm | hm
  · subst hm
    have hspec := single_choice_vote_spec phase1.1 question phase1.2 round_num
      o.llm o.voteRand o.now allow_self_voting
    set scv := single_choice_vote phase1.1 question phase1.2 round_num o.llm
      o.voteRand o.now allow_self_voting with hscv
    have hvne : scv.2.votes ≠ [] := hspec.2.2.1 hP1ne
    have hloser : get_loser scv.2 ∈ scv.1.map Agent.name := by
      have h1 := get_loser_mem_single scv.2 hspec.2.2.2 hvne
      have h2 : get_loser scv.2 ∈ agents.map Agent.name := by
        rcases hspec.2.1 _ h1 with h | h
        · rw [← hnamesP]
          exact h
        · exact hkeysP _ h
      rw [hspec.1, hnamesP]
      exact h2
    have helimlen := eliminate_agent_length_of_mem scv.1 (get_loser scv.2) hloser
    have hlen1 : scv.1.length = agents.length := by
      have := congrArg List.length (hspec.1.trans hnamesP)
      simpa using this
    have helimne : (eliminate_agent scv.1 (get_loser scv.2)).2 ≠ [] := by
      intro h0
      rw [h0] at helimlen
      simp at helimlen
      omega
    obtain ⟨new, hnew⟩ := create_evolved_agent_isSome mutation_rate_pct
      mutation_traits _ round_num model o.evo helimne
    have hconduct : conduct_vote "single-choice" allow_self_voting phase1.1
        question phase1.2 round_num o.llm o.voteRand o.now
        = some (scv.1, scv.2) := by
      unfold conduct_vote
      simp only [beq_self_eq_true, if_true]
    refine ⟨{ agents := (eliminate_agent scv.1 (get_loser scv.2)).2 ++ [new],
              answers := phase1.2, vote := scv.2,
              eliminated := get_loser scv.2, evolved := new.name }, ?_, ?_⟩
    · simp only [run_round]
      rw [← hagents1, ← hphase1, hconduct]
      dsimp only
      rw [hnew]
    · simp only [List.length_append, List.length_cons, List.length_nil]
      omega
  · subst hm
    have hspec := ranked_choice_vote_spec phase1.1 question phase1.2 round_num
      o.llm o.voteRand allow_self_voting
    set rcv := ranked_choice_vote phase1.1 question phase1.2 round_num o.llm
      o.voteRand allow_self_voting with hrcv
    have hvne : rcv.2.points ≠ [] := hspec.2.2.1 hP1ne
    have hloser : get_loser rcv.2 ∈ rcv.1.map Agent.name := by
      have h1 := get_loser_mem_ranked rcv.2 hspec.2.2.2 hvne
      have h2 : get_loser rcv.2 ∈ agents.map Agent.name := by
        rcases hspec.2.1 _ h1 with h | h
        · rw [← hnamesP]
          exact h
        · exact hkeysP _ h
      rw [hspec.1, hnamesP]
      exact h2
    have helimlen := eliminate_agent_length_of_mem rcv.1 (get_loser rcv.2) hloser
    have hlen1 : rcv.1.length = agents.length := by
      rw [hspec.1, hlenP]
    have helimne : (eliminate_agent rcv.1 (get_loser rcv.2)).2 ≠ [] := by
      intro h0
      rw [h0] at helimlen
      simp at helimlen
      omega
    obtain ⟨new, hnew⟩ := create_evolved_agent_isSome mutation_rate_pct
      mutation_traits _ round_num model o.evo helimne
    have hconduct : conduct_vote "ranked-choice" allow_self_voting phase1.1
        question phase1.2 round_num o.llm o.voteRand o.now
        = some (rcv.1, rcv.2) := by
      unfold conduct_vote
      have h1 : (("ranked-choice" : String) == "single-choice") = false := by decide
      simp only [h1, Bool.false_eq_true, if_false, beq_self_eq_true, if_true]
    refine ⟨{ agents := (eliminate_agent rcv.1 (get_loser rcv.2)).2 ++ [new],
              answers := phase1.2, vote := rcv.2,
              eliminated := get_loser rcv.2, evolved := new.name }, ?_, ?_⟩
    · simp only [run_round]
      rw [← hagents1, ← hphase1, hconduct]
      dsimp only
      rw [hnew]
    · simp only [List.length_append, List.length_cons, List.length_nil]
      omega

/-- A stub oracle bundle for concrete rounds (constant generator text,
zero randomness). -/
def oC2 : RoundOracle :=
  { llm := fun _ => "x", voteRand := fun _ => 0, now := "t",
    evo := { rParent := 0, rMut := 0, rCount := 0, rSample := 0, rSuffix := 0,
             rBranch := 0, rAdj := 0, rNoun := 0 } }

/-- Witness for C2: a concrete two-agent single-choice round completes with
the population size preserved. -/
theorem claim_C2_population_size_invariant_witness :
    ((("single-choice" : String) = "single-choice" ∨
        ("single-choice" : String) = "ranked-choice") ∧
      2 ≤ ([mkFounder "Alice" "pa", mkFounder "Bob" "pb"] : List Agent).length) ∧
    ∃ res, run_round "single-choice" false 30 MUTATION_TRAITS "llama2"
        [mkFounder "Alice" "pa", mkFounder "Bob" "pb"] 1 "q" oC2 = some res ∧
      res.agents.length = ([mkFounder "Alice" "pa", mkFounder "Bob" "pb"] : List Agent).length :=
  ⟨⟨Or.inl rfl, by decide⟩,
    claim_C2_population_size_invariant "single-choice" false 30 MUTATION_TRAITS
      "llama2" [mkFounder "Alice" "pa", mkFounder "Bob" "pb"] 1 "q" oC2
      (Or.inl rfl) (by decide)⟩

/-! ### Lineage lemmas -/

theorem lineageLoop_acc (roster : List Agent) : ∀ (fuel : Nat) (cur : Agent)
    (acc : List String),
    lineageLoop roster fuel cur acc
      = (acc ++ (lineageLoop roster fuel cur []).1,
         (lineageLoop roster fuel cur []).2)
  | 0, cur, acc => by simp [lineageLoop]
  | fuel + 1, cur, acc => by
    cases hp : cur.parent_name with
    | none => simp [lineageLoop, hp]
    | some p =>
      cases hf : find_agent roster p with
      | none => simp [lineageLoop, hp, hf]
      | some parent =>
        have ih1 := lineageLoop_acc roster fuel parent (acc ++ [p])
        have ih2 := lineageLoop_acc roster fuel parent [p]
        simp only [lineageLoop, hp, hf, List.nil_append]
        rw [ih1, ih2]
        simp

theorem find_agent_name_mem (roster : List Agent) (p : String) (a : Agent)
    (h : find_agent roster p = some a) : p ∈ roster.map Agent.name := by
  unfold find_agent at h
  have hmem := List.mem_of_find?_eq_some h
  have hbeq := List.find?_some h
  rw [← eq_of_beq hbeq]
  exact List.mem_map_of_mem Agent.name hmem

theorem lineageLoop_fuel_out (roster : List Agent) : ∀ (fuel : Nat) (cur : Agent)
    (acc : List String), (lineageLoop roster fuel cur acc).2 = false →
    (lineageLoop roster fuel cur acc).1.length = acc.length + fuel ∧
    ∀ x ∈ (lineageLoop roster fuel cur acc).1.drop acc.length,
      x ∈ roster.map Agent.name
  | 0, cur, acc => by
    intro _
    refine ⟨by simp [lineageLoop], ?_⟩
    simp [lineageLoop]
  | fuel + 1, cur, acc => by
    intro hflag
    cases hp : cur.parent_name with
    | none => simp [lineageLoop, hp] at hflag
    | some p =>
      cases hf : find_agent roster p with
      | none =>
        simp [lineageLoop, hp, hf] at hflag
      | some parent =>
        simp only [lineageLoop, hp, hf] at hflag ⊢
        have ih := lineageLoop_fuel_out roster fuel parent (acc ++ [p]) hflag
        refine ⟨by rw [ih.1]; simp; omega, ?_⟩
        intro x hx
        have hdec := lineageLoop_acc roster fuel parent (acc ++ [p])
        rw [hdec] at hx
        dsimp only at hx
        rw [List.append_assoc, List.drop_left] at hx
        rcases List.mem_append.mp hx with h1 | h1
        · simp only [List.mem_singleton] at h1
          rw [h1]
          exact find_agent_name_mem roster p parent hf
        · have h3 := ih.2 x
          rw [hdec] at h3
          dsimp only at h3
          rw [List.drop_left] at h3
          exact h3 h1

theorem lineageLoop_fuel_mono (roster : List Agent) : ∀ (fuel : Nat) (cur : Agent)
    (acc : List String), (lineageLoop roster fuel cur acc).2 = true →
    ∀ g, fuel ≤ g → lineageLoop roster g cur acc = lineageLoop roster fuel cur acc
  | 0, cur, acc => by
    intro hflag
    simp [lineageLoop] at hflag
  | fuel + 1, cur, acc => by
    intro hflag g hg
    obtain ⟨g2, rfl⟩ : ∃ g2, g = g2 + 1 := ⟨g - 1, by omega⟩
    cases hp : cur.parent_name with
    | none => simp only [lineageLoop, hp]
    | some p =>
      cases hf : find_agent roster p with
      | none => simp only [lineageLoop, hp, hf]
      | some parent =>
        simp only [lineageLoop, hp, hf] at hflag ⊢
        exact lineageLoop_fuel_mono roster fuel parent (acc ++ [p]) hflag g2
          (by omega)

theorem lineageLoop_terminal (roster : List Agent) (agent : Agent) :
    ∀ (fuel : Nat) (cur : Agent) (acc : List String) (lastA : String),
    acc.getLast? = some lastA →
    (find_agent roster lastA = some cur ∨
      (acc = [agent.name] ∧ cur = agent)) →
    (lineageLoop roster fuel cur acc).2 = true →
    ∃ L, (lineageLoop roster fuel cur acc).1.getLast? = some L ∧
      ((∃ a, find_agent roster L = some a ∧ a.parent_name = none) ∨
        find_agent roster L = none ∨
        (L = agent.name ∧ agent.parent_name = none))
  | 0, cur, acc, lastA => by
    intro _ _ hflag
    simp [lineageLoop] at hflag
  | fuel + 1, cur, acc, lastA => by
    intro hlast hinv hflag
    cases hp : cur.parent_name with
    | none =>
      have hres : lineageLoop roster (fuel + 1) cur acc = (acc, true) := by
        simp only [lineageLoop, hp]
      refine ⟨lastA, by rw [hres]; exact hlast, ?_⟩
      rcases hinv with h | ⟨hacc, hcur⟩
      · exact Or.inl ⟨cur, h, hp⟩
      · have hA : lastA = agent.name := by
          rw [hacc] at hlast
          simp at hlast
          exact hlast.symm
        exact Or.inr (Or.inr ⟨hA, by rw [← hcur]; exact hp⟩)
    | some p =>
      cases hf : find_agent roster p with
      | some parent =>
        have hres : lineageLoop roster (fuel + 1) cur acc
            = lineageLoop roster fuel parent (acc ++ [p]) := by
          simp only [lineageLoop, hp, hf]
        rw [hres] at hflag ⊢
        exact lineageLoop_terminal roster agent fuel parent (acc ++ [p]) p
          (List.getLast?_concat acc) (Or.inl hf) hflag
      | none =>
        have hres : lineageLoop roster (fuel + 1) cur acc = (acc ++ [p], true) := by
          simp only [lineageLoop, hp, hf]
        refine ⟨p, by rw [hres]; exact List.getLast?_concat acc, ?_⟩
        exact Or.inr (Or.inl hf)

/-! ### C10 -/

/-- C10: when the chain of `parent_name` lookups visits pairwise-distinct
names (no cycle), the lineage walk of `get_lineage` terminates within
`roster.length + 1` iterations (more fuel gives the same result), returns a
list whose last element is the queried agent, and its first (oldest) element
is a founder (resolves in the roster to an agent without parent), a name
absent from the roster, or the queried agent itself when it has no parent. -/
theorem claim_C10_lineage_walk_terminates (roster : List Agent) (agent : Agent)
    (hnc : ((get_lineage roster agent (roster.length + 1)).1).Nodup) :
    (get_lineage roster agent (roster.length + 1)).2 = true ∧
    (get_lineage roster agent (roster.length + 1)).1.getLast? = some agent.name ∧
    (∀ g, roster.length + 1 ≤ g →
      get_lineage roster agent g = get_lineage roster agent (roster.length + 1)) ∧
    (∀ h, (get_lineage roster agent (roster.length + 1)).1.head? = some h →
      (∃ a, find_agent roster h = some a ∧ a.parent_name = none) ∨
      find_agent roster h = none ∨
      (h = agent.name ∧ agent.parent_name = none)) := by
  have hdec := lineageLoop_acc roster (roster.length + 1) agent [agent.name]
  have h1 : (lineageLoop roster (roster.length + 1) agent [agent.name]).1
      = agent.name :: (lineageLoop roster (roster.length + 1) agent []).1 := by
    rw [hdec]
    rfl
  have hflag : (lineageLoop roster (roster.length + 1) agent [agent.name]).2
      = true := by
    by_contra hc
    rw [Bool.not_eq_true] at hc
    have hout := lineageLoop_fuel_out roster (roster.length + 1) agent
      [agent.name] hc
    have hnodup : (lineageLoop roster (roster.length + 1) agent [agent.name]).1.Nodup :=
      List.nodup_reverse.mp hnc
    have hTlen : (lineageLoop roster (roster.length + 1) agent []).1.length
        = roster.length + 1 := by
      have h2 := hout.1
      rw [h1] at h2
      simp at h2
      omega
    have hTsub : ∀ x ∈ (lineageLoop roster (roster.length + 1) agent []).1,
        x ∈ roster.map Agent.name := by
      intro x hx
      refine hout.2 x ?_
      rw [h1]
      simpa using hx
    have hTnodup : (lineageLoop roster (roster.length + 1) agent []).1.Nodup := by
      rw [h1] at hnodup
      exact hnodup.of_cons
    have hcard : (lineageLoop roster (roster.length + 1) agent []).1.length
        ≤ (roster.map Agent.name).dedup.length := by
      calc (lineageLoop roster (roster.length + 1) agent []).1.length
          = (lineageLoop roster (roster.length + 1) agent []).1.toFinset.card :=
            (List.toFinset_card_of_nodup hTnodup).symm
        _ ≤ (roster.map Agent.name).toFinset.card := by
            refine Finset.card_le_card (fun x hx => ?_)
            rw [List.mem_toFinset] at hx ⊢
            exact hTsub x hx
        _ = (roster.map Agent.name).dedup.length := List.card_toFinset _
    have hdedup : (roster.map Agent.name).dedup.length ≤ roster.length := by
      have h3 := (List.dedup_sublist (roster.map Agent.name)).length_le
      simpa using h3
    omega
  refine ⟨hflag, ?_, ?_, ?_⟩
  · show ((lineageLoop roster (roster.length + 1) agent [agent.name]).1.reverse).getLast?
      = some agent.name
    rw [List.getLast?_reverse, h1]
    rfl
  · intro g hg
    have hmono := lineageLoop_fuel_mono roster (roster.length + 1) agent
      [agent.name] hflag g hg
    show ((lineageLoop roster g agent [agent.name]).1.reverse,
        (lineageLoop roster g agent [agent.name]).2) = _
    rw [hmono]
    rfl
  · intro h hh
    have hh2 : (lineageLoop roster (roster.length + 1) agent [agent.name]).1.getLast?
        = some h := by
      rw [← List.head?_reverse]
      exact hh
    obtain ⟨L, hL, hdisj⟩ := lineageLoop_terminal roster agent
      (roster.length + 1) agent [agent.name] agent.name (by rfl)
      (Or.inr ⟨rfl, rfl⟩) hflag
    rw [hL] at hh2
    have : h = L := by
      injection hh2 with h3
      exact h3.symm
    rw [this]
    exact hdisj

/-- The historical roster for the C10 witness: the founder Bob. -/
def rosterC10 : List Agent := [mkFounder "B" "pb"]

/-- The queried agent for the C10 witness: child of Bob. -/
def agentC10 : Agent := { mkFounder "A" "pa" with parent_name := some "B" }

/-- Witness for C10: the two-step lineage `B -> A` terminates and ends at the
queried agent. -/
theorem claim_C10_lineage_walk_terminates_witness :
    ((get_lineage rosterC10 agentC10 (rosterC10.length + 1)).1).Nodup ∧
    ((get_lineage rosterC10 agentC10 (rosterC10.length + 1)).2 = true ∧
      (get_lineage rosterC10 agentC10 (rosterC10.length + 1)).1.getLast?
        = some agentC10.name) :=
  ⟨by decide,
    (claim_C10_lineage_walk_terminates rosterC10 agentC10 (by decide)).1,
    (claim_C10_lineage_walk_terminates rosterC10 agentC10 (by decide)).2.1⟩

end AiHungerGames
